import Mathlib

/-!
Verification of the uigen-vue backend against its natural-language spec.

The development shallowly embeds the TypeScript sources:

* `Routes`   — the Express route handlers in `src/server/routes/auth.ts`,
  `src/server/routes/ai.ts` and `src/server/routes/projects.ts`.  A handler
  becomes a pure function from the (relevant parts of the) request and the
  outcome of the database call to the HTTP response.
* `Manager`  — `AIProviderManager` from `src/server/lib/ai/provider-manager.ts`
  together with the mock provider from `src/server/lib/ai/mock-provider.ts`.
  The two insertion-ordered maps `providers` and `providerStatus` share their
  key set in every reachable state (`registerProvider` inserts into both and
  nothing else inserts or removes), so they are merged into one association
  list of entries.  Vendor-SDK calls are abstracted as per-provider outcomes;
  wall-clock fields (`lastChecked`, `responseTime`) and the floating-point
  cost counters are omitted.
* `VFS`      — `VirtualFileSystem` from the source file that defines it
  (`src/lib/file-system.ts`, present as an unnamed source file).  JavaScript
  objects are aliased between the two maps and the `children` arrays, so the
  embedding uses an explicit heap: every allocated file/directory object is a
  heap cell addressed by its id (uuids become a fresh-id counter), `children`
  stores references (ids), and every field read/write goes through the heap,
  exactly as the JS mutations do.  `Date` timestamps, file metadata, mime
  types and the watcher/snapshot API are omitted; `emitEvent` only invokes
  external callbacks and never changes the file-system state, so it is a
  no-op here.

JavaScript-specific semantics (regex replacement, `String.prototype.slice`
with negative indices, UTF-16 `length`, truthiness) are embedded by small
executable functions defined next to their uses.
-/

namespace UigenVue

/-! ## JavaScript string primitives -/

/-- Word characters of the JavaScript regex class `\w` (with the `i` flag the
case distinction is irrelevant): `[A-Za-z0-9_]`. -/
def isWordChar (c : Char) : Bool :=
  (('a' ≤ c && c ≤ 'z') || ('A' ≤ c && c ≤ 'Z') || ('0' ≤ c && c ≤ '9') || c = '_')

/-- Case-insensitive character comparison used by regexes with the `i` flag. -/
def charCI (a b : Char) : Bool := a.toLower = b.toLower

/-- Case-insensitive prefix test on character lists. -/
def startsWithCI : List Char → List Char → Bool
  | [], _ => true
  | _ :: _, [] => false
  | p :: ps, c :: cs => charCI c p && startsWithCI ps cs

/-- The ECMAScript `WhiteSpace` and `LineTerminator` code points removed by
`String.prototype.trim`. -/
def isJsSpace (c : Char) : Bool :=
  c = ' ' || c = '\t' || c = '\n' || c = '\r' || c.val = 0x0B || c.val = 0x0C ||
  c.val = 0xA0 || c.val = 0xFEFF || c.val = 0x1680 ||
  (0x2000 ≤ c.val && c.val ≤ 0x200A) ||
  c.val = 0x2028 || c.val = 0x2029 || c.val = 0x202F || c.val = 0x205F || c.val = 0x3000

/-- JavaScript `String.prototype.trim`. -/
def jsTrim (s : String) : String :=
  ⟨((s.data.dropWhile isJsSpace).reverse.dropWhile isJsSpace).reverse⟩

/-- UTF-16 length of a string: JavaScript's `String.prototype.length` counts
UTF-16 code units, so code points above `0xFFFF` count twice. -/
def utf16Length (s : String) : Nat :=
  s.data.foldl (fun n c => n + (if c.val ≥ 0x10000 then 2 else 1)) 0

/-! ### The XSS-stripping regex of the projects POST route

`/<script\b[^<]*(?:(?!<\/script>)<[^<]*)*<\/script>/gi` matches, at any
position, `<script` followed by a word boundary and then everything up to and
including the first case-insensitive occurrence of `</script>`; the global
replacement removes every such match, scanning left to right and resuming
after each removed match. -/

/-- Drop everything up to and including the first case-insensitive occurrence
of `</script>`; `none` when there is no such occurrence. -/
def dropToClose : List Char → Option (List Char)
  | [] => none
  | c :: cs =>
    if startsWithCI "</script>".data (c :: cs) then
      some ((c :: cs).drop 9)
    else
      dropToClose cs

theorem dropToClose_length_le : ∀ l l', dropToClose l = some l' → l'.length ≤ l.length := by
  intro l
  induction l with
  | nil => intro l' h; simp [dropToClose] at h
  | cons c cs ih =>
    intro l' h
    simp only [dropToClose] at h
    split at h
    · cases h
      have := List.length_drop 9 (c :: cs)
      omega
    · exact le_trans (ih l' h) (Nat.le_succ _)

/-- The global replacement by the empty string of the script-block regex, on
character lists.  A match starts at `<` immediately followed by `script`
(case-insensitively) and a word boundary, and extends to the first
case-insensitive `</script>`; when no closing tag follows, the regex fails at
this position and scanning resumes at the next character. -/
def stripScriptsAux : List Char → List Char
  | [] => []
  | c :: cs =>
    if c = '<' && startsWithCI "script".data cs
        && (match cs.drop 6 with
            | [] => true
            | d :: _ => !isWordChar d) then
      match h : dropToClose (cs.drop 6) with
      | some rest => stripScriptsAux rest
      | none => c :: stripScriptsAux cs
    else
      c :: stripScriptsAux cs
termination_by l => l.length
decreasing_by
  · have h1 := dropToClose_length_le _ _ h
    have h2 := List.length_drop 6 cs
    simp only [List.length_cons]
    omega
  · simp
  · simp

/-- Sanitisation used by `POST /api/projects`: remove every
`<script ...>...</script>` block (JS `String.prototype.replace` with the
global, case-insensitive regex above). -/
def stripScripts (s : String) : String := ⟨stripScriptsAux s.data⟩

/-! ## Route handlers (`src/server/routes`) -/

namespace Routes

/-- An incoming HTTP request, as far as the stub handlers can observe it: the
stubs ignore the request entirely (they bind it as `_req`), so body and
headers are carried only to quantify over them. -/
structure HttpRequest where
  body : String
  headers : List (String × String)
deriving Repr, DecidableEq

/-- The JSON body every stub route sends: `{ success, message, data: null }`.
The `data` field is always `null` in the source and is omitted. -/
structure StubBody where
  success : Bool
  message : String
deriving Repr, DecidableEq

/-- An HTTP response of a stub route: `res.status(st).json(body)`. -/
structure StubResponse where
  status : Nat
  body : StubBody
deriving Repr, DecidableEq

/-- Handler of `POST /register` on the auth router (`auth.ts`).  The `try`
body is straight-line and cannot throw, so the `catch` branch is dead. -/
def authRegister (_ : HttpRequest) : StubResponse :=
  ⟨501, ⟨false, "User registration not implemented yet"⟩⟩

/-- Handler of `POST /login` on the auth router. -/
def authLogin (_ : HttpRequest) : StubResponse :=
  ⟨501, ⟨false, "User login not implemented yet"⟩⟩

/-- Handler of `POST /logout` on the auth router. -/
def authLogout (_ : HttpRequest) : StubResponse :=
  ⟨501, ⟨false, "User logout not implemented yet"⟩⟩

/-- Handler of `POST /refresh` on the auth router. -/
def authRefresh (_ : HttpRequest) : StubResponse :=
  ⟨501, ⟨false, "Token refresh not implemented yet"⟩⟩

/-- Handler of `GET /profile` on the auth router. -/
def authProfile (_ : HttpRequest) : StubResponse :=
  ⟨501, ⟨false, "Get user profile not implemented yet"⟩⟩

/-- Handler of `POST /chat` on the AI router (`ai.ts`). -/
def aiChat (_ : HttpRequest) : StubResponse :=
  ⟨501, ⟨false, "AI chat not implemented yet"⟩⟩

/-! ### The projects routes (`projects.ts`) -/

/-- A row of the Prisma `Project` model (schema fields `id`, `name`,
`description`, plus the related `files` when included); `DateTime` columns
are omitted.  `files` rows are reduced to their ids, which is all the routes
ever do with them (they serialise rows verbatim). -/
structure Project where
  id : String
  name : String
  description : Option String
  files : List String
deriving Repr, DecidableEq

/-- Response of the projects routes: either a JSON payload (an array of
projects or a single created project) or an error object `{ error: msg }`. -/
inductive ProjectsBody where
  | list (projects : List Project)
  | single (project : Project)
  | errorMsg (msg : String)
deriving Repr, DecidableEq

/-- Status plus JSON body sent by a projects route. -/
structure ProjectsResponse where
  status : Nat
  body : ProjectsBody
deriving Repr, DecidableEq

/-- Handler of `GET /api/projects`: it performs the single database query
`prisma.project.findMany({ include: { files: true } })` and otherwise holds
no state, so it is a pure function of that query's outcome.  `res.json`
without an explicit status sends 200. -/
def getProjects (dbResult : Except Unit (List Project)) : ProjectsResponse :=
  match dbResult with
  | .ok projects => ⟨200, .list projects⟩
  | .error _ => ⟨500, .errorMsg "無法取得專案"⟩

/-- A JSON value as the body parser can deliver it for a single field.
JSON numbers are restricted to integers, which is enough for the claims
about this route. -/
inductive JVal where
  | null
  | bool (b : Bool)
  | num (n : Int)
  | str (s : String)
deriving Repr, DecidableEq

/-- JavaScript truthiness of a field value (`undefined` is `none`). -/
def jTruthy : Option JVal → Bool
  | none => false
  | some .null => false
  | some (.bool b) => b
  | some (.num n) => n ≠ 0
  | some (.str s) => s ≠ ""

/-- JavaScript `String(v)` on a JSON field value. -/
def jToString : Option JVal → String
  | none => "undefined"
  | some .null => "null"
  | some (.bool b) => if b then "true" else "false"
  | some (.num n) => toString n
  | some (.str s) => s

/-- The request body of `POST /api/projects` as destructured by the handler:
the `name` and `description` fields (`none` = absent/`undefined`). -/
structure CreateProjectBody where
  name : Option JVal
  description : Option JVal
deriving Repr, DecidableEq

/-- The `data` object passed to `prisma.project.create`. -/
structure ProjectData where
  name : String
  description : Option String
deriving Repr, DecidableEq

/-- Handler of `POST /api/projects`.  `db` is the outcome of
`prisma.project.create` on the sanitised payload; the second component of the
result is the payload actually handed to the database (`none` when the
request was rejected before reaching the database). -/
def createProject (b : CreateProjectBody) (db : ProjectData → Except Unit Project) :
    ProjectsResponse × Option ProjectData :=
  if b.name = none || b.name = some .null then
    (⟨400, .errorMsg "專案名稱為必填項目"⟩, none)
  else
    match b.name with
    | some (.str rawName) =>
      let cleanName := jsTrim rawName
      if utf16Length cleanName = 0 then
        (⟨400, .errorMsg "專案名稱不能為空"⟩, none)
      else if utf16Length cleanName > 255 then
        (⟨400, .errorMsg "專案名稱過長，最多 255 個字元"⟩, none)
      else
        let sanitizedName := stripScripts cleanName
        let sanitizedDescription :=
          if jTruthy b.description then some (stripScripts (jToString b.description))
          else none
        let payload : ProjectData := ⟨sanitizedName, sanitizedDescription⟩
        match db payload with
        | .ok project => (⟨201, .single project⟩, some payload)
        | .error _ => (⟨400, .errorMsg "無法建立專案"⟩, some payload)
    | _ => (⟨400, .errorMsg "專案名稱必須為字串"⟩, none)

end Routes

/-! ## The AI provider manager (`src/server/lib/ai`) -/

namespace Manager

/-- Token usage reported by a provider response (`AIResponse.usage`). -/
structure Usage where
  inputTokens : Nat
  outputTokens : Nat
  totalTokens : Nat
deriving Repr, DecidableEq

/-- A provider response (`AIResponse`); the fields the manager never reads
(`model`, `finishReason`, `toolCalls`) are omitted. -/
structure AIResponse where
  content : String
  usage : Option Usage
deriving Repr, DecidableEq

/-- One chunk of a streamed response (`AIStreamChunk`). -/
structure AIStreamChunk where
  content : String
  isComplete : Bool
  usage : Option Usage
deriving Repr, DecidableEq

/-- The integer counters of `AIProviderStatus.usage`; the floating-point cost
counters are outside the embedding. -/
structure UsageStats where
  requestsToday : Nat
  tokensToday : Nat
  requestsThisMonth : Nat
  tokensThisMonth : Nat
deriving Repr, DecidableEq

/-- The all-zero counters installed by `registerProvider`. -/
def UsageStats.zero : UsageStats := ⟨0, 0, 0, 0⟩

instance {ε α : Type} [DecidableEq ε] [DecidableEq α] : DecidableEq (Except ε α) := fun a b =>
  match a, b with
  | .ok x, .ok y => decidable_of_iff (x = y) (by simp)
  | .error x, .error y => decidable_of_iff (x = y) (by simp)
  | .ok _, .error _ => isFalse (by simp)
  | .error _, .ok _ => isFalse (by simp)

/-- One registered provider together with its status entry.  The fields up to
`healthOutcome` model the provider object: `id` and `priority` come from its
config (`getInfo()`), and the three `…Outcome` fields abstract the outcome of
the vendor-SDK calls `generateContent`, `generateContentStream` (the chunks
it yields, then an optional thrown error) and `healthCheck`.  The remaining
fields are the `AIProviderStatus` entry of the same id. -/
structure ProviderEntry where
  id : String
  name : String
  priority : Option Int
  genOutcome : Except String AIResponse
  streamOutcome : List AIStreamChunk × Option String
  healthOutcome : Except String Bool
  isHealthy : Bool
  errorMessage : Option String
  usage : UsageStats
deriving Repr, DecidableEq

/-- The manager: the merged `providers`/`providerStatus` maps in insertion
order, and the `defaultProvider` field. -/
structure AIProviderManager where
  providers : List ProviderEntry
  defaultProvider : Option String
deriving Repr, DecidableEq

/-- A freshly constructed manager. -/
def AIProviderManager.empty : AIProviderManager := ⟨[], none⟩

/-- The priority used by the sort comparator: `provider.getInfo().priority || 0`
(an absent priority, like a zero one, counts as 0). -/
def priorVal (e : ProviderEntry) : Int := e.priority.getD 0

/-- Comparator-induced order of the JS stable sort
`(a, b) => (b.priority || 0) - (a.priority || 0)`: `a` may stay before `b`
exactly when its priority is at least `b`'s (descending order). -/
def providerLe (a b : ProviderEntry) : Bool := priorVal b ≤ priorVal a

/-- Lookup in the merged providers map (`this.providers.get(id)` /
`this.providerStatus.get(id)`). -/
def findProvider (m : AIProviderManager) (id : String) : Option ProviderEntry :=
  m.providers.find? (fun e => e.id = id)

/-- The priority-ordered healthy-provider selection of
`getAvailableProvider`: filter the registered providers to the healthy ones,
sort them descending by priority (stable), and take the first; throw
`'No healthy AI providers available'` when none is left. -/
def selectByPriority (m : AIProviderManager) : Except String ProviderEntry :=
  match (m.providers.filter (fun e => e.isHealthy)).mergeSort providerLe with
  | [] => .error "No healthy AI providers available"
  | e :: _ => .ok e

/-- The first branch of `getAvailableProvider`: the preferred provider when
one is specified, registered, and currently healthy. -/
def preferredHit (m : AIProviderManager) (preferred : Option String) : Option ProviderEntry :=
  match preferred with
  | none => none
  | some p =>
    match findProvider m p with
    | none => none
    | some e => if e.isHealthy then some e else none

/-- `AIProviderManager.getAvailableProvider`. -/
def getAvailableProvider (m : AIProviderManager) (preferred : Option String) :
    Except String ProviderEntry :=
  match preferredHit m preferred with
  | some e => .ok e
  | none => selectByPriority m

/-- `AIProviderManager.markProviderUnhealthy`: flip the status entry of the
given id to unhealthy and record the error message. -/
def markProviderUnhealthy (m : AIProviderManager) (id : String) (msg : String) :
    AIProviderManager :=
  { m with
    providers := m.providers.map (fun e =>
      if e.id = id then { e with isHealthy := false, errorMessage := some msg } else e) }

/-- `AIProviderManager.updateUsageStats` (integer counters only; a `none`
usage returns at once, as in the source). -/
def updateUsageStats (m : AIProviderManager) (id : String) (usage : Option Usage) :
    AIProviderManager :=
  match usage with
  | none => m
  | some u =>
    { m with
      providers := m.providers.map (fun e =>
        if e.id = id then
          { e with usage :=
            ⟨e.usage.requestsToday + 1, e.usage.tokensToday + u.totalTokens,
             e.usage.requestsThisMonth + 1, e.usage.tokensThisMonth + u.totalTokens⟩ }
        else e) }

/-- `AIProviderManager.generateContent` specialised to no preferred provider:
on failure of the selected provider it marks it unhealthy and rethrows (the
fallback branch is guarded by `if (preferredProvider)`). -/
def generateContentNoPref (m : AIProviderManager) : Except String AIResponse × AIProviderManager :=
  match getAvailableProvider m none with
  | .error e => (.error e, m)
  | .ok prov =>
    match prov.genOutcome with
    | .ok resp => (.ok resp, updateUsageStats m prov.id resp.usage)
    | .error err => (.error err, markProviderUnhealthy m prov.id err)

/-- `AIProviderManager.generateContent`.  When the chosen provider throws it
is marked unhealthy; then, only if a preferred provider had been specified,
the call retries once via `this.generateContent(messages, options)` with no
preference (embedded by `generateContentNoPref`), and otherwise rethrows. -/
def generateContent (m : AIProviderManager) (preferred : Option String) :
    Except String AIResponse × AIProviderManager :=
  match getAvailableProvider m preferred with
  | .error e => (.error e, m)
  | .ok prov =>
    match prov.genOutcome with
    | .ok resp => (.ok resp, updateUsageStats m prov.id resp.usage)
    | .error err =>
      let m1 := markProviderUnhealthy m prov.id err
      match preferred with
      | some _ => generateContentNoPref m1
      | none => (.error err, m1)

/-- The `finalUsage` tracked by `generateContentStream`: the usage of the
last yielded chunk with `isComplete && usage` (assignments overwrite, so the
last one wins). -/
def finalUsage (chunks : List AIStreamChunk) : Option Usage :=
  (chunks.filterMap (fun c => if c.isComplete then c.usage else none)).getLast?

/-- `AIProviderManager.generateContentStream`: the result is the list of
chunks the generator yields before finishing or throwing, paired with the
thrown error if any.  On success the usage statistics are updated from
`finalUsage`; on failure the provider is marked unhealthy and the error is
rethrown — there is no retry in the stream path. -/
def generateContentStream (m : AIProviderManager) (preferred : Option String) :
    (List AIStreamChunk × Option String) × AIProviderManager :=
  match getAvailableProvider m preferred with
  | .error e => (([], some e), m)
  | .ok prov =>
    match prov.streamOutcome with
    | (chunks, none) => ((chunks, none), updateUsageStats m prov.id (finalUsage chunks))
    | (chunks, some err) => ((chunks, some err), markProviderUnhealthy m prov.id err)

/-- `AIProviderManager.performHealthChecks`: every provider's `healthCheck`
is run; its boolean result becomes `isHealthy` (with `errorMessage` set to
`'Health check failed'` on `false`), and a thrown health check marks the
provider unhealthy with the thrown message. -/
def performHealthChecks (m : AIProviderManager) : AIProviderManager :=
  { m with
    providers := m.providers.map (fun e =>
      match e.healthOutcome with
      | .ok b =>
        { e with isHealthy := b, errorMessage := if b then none else some "Health check failed" }
      | .error msg => { e with isHealthy := false, errorMessage := some msg }) }

/-! ### The mock provider (`mock-provider.ts`) -/

/-- Provider configuration fields the mock provider and the registration path
read. -/
structure AIProviderConfig where
  id : String
  name : String
  priority : Option Int
  isActive : Bool
deriving Repr, DecidableEq

/-- The state of a `MockProvider` instance: its config and the
`isInitialized` flag inherited from `BaseAIProvider` (initially `false`). -/
structure MockProvider where
  config : AIProviderConfig
  isInitialized : Bool
deriving Repr, DecidableEq

/-- `new MockProvider(config)`. -/
def MockProvider.make (config : AIProviderConfig) : MockProvider := ⟨config, false⟩

/-- `MockProvider.initialize`: after a simulated delay it sets
`isInitialized` and returns; it can never throw. -/
def MockProvider.init (p : MockProvider) : Except String MockProvider :=
  .ok { p with isInitialized := true }

/-- `MockProvider.healthCheck`: after a simulated delay it returns `true`; it
never throws and reads no state. -/
def MockProvider.healthCheckRun (_ : MockProvider) : Except String Bool :=
  .ok true

/-- `Map.set` on the merged providers map: replace in place when the id is
already registered, append otherwise. -/
def setProvider (l : List ProviderEntry) (e : ProviderEntry) : List ProviderEntry :=
  if l.any (fun x => x.id = e.id) then
    l.map (fun x => if x.id = e.id then e else x)
  else
    l ++ [e]

/-- `registerProvider` on a mock config: construct a `MockProvider`, run its
`initialize` (always succeeds), insert the provider and a fresh healthy
status entry, and set `defaultProvider` when the config is active and none is
set yet.  `gen` and `stream` abstract the mock generation outcomes (their
content depends on `Math.random`). -/
def registerMock (m : AIProviderManager) (config : AIProviderConfig)
    (gen : Except String AIResponse) (stream : List AIStreamChunk × Option String) :
    AIProviderManager :=
  let entry : ProviderEntry :=
    { id := config.id, name := config.name, priority := config.priority,
      genOutcome := gen, streamOutcome := stream,
      healthOutcome := MockProvider.healthCheckRun ((MockProvider.make config).init.toOption.getD (MockProvider.make config)),
      isHealthy := true, errorMessage := none, usage := UsageStats.zero }
  { providers := setProvider m.providers entry,
    defaultProvider :=
      if config.isActive && m.defaultProvider.isNone then some config.id
      else m.defaultProvider }

/-! ### Concrete managers for evaluating the failover policy -/

/-- A registered provider whose generation and stream calls fail. -/
def entryA : ProviderEntry :=
  ⟨"anthropic", "Anthropic", some 2, .error "A down",
    ([⟨"partial", false, none⟩], some "A down"), .ok true, true, none, UsageStats.zero⟩

/-- A registered lower-priority provider whose generation succeeds. -/
def entryB : ProviderEntry :=
  ⟨"mock", "Mock", some 1, .ok ⟨"mock response", none⟩, ([], none), .ok true, true, none,
    UsageStats.zero⟩

/-- A registered single failing provider. -/
def entryC : ProviderEntry :=
  ⟨"mock", "Mock", some 1, .error "down", ([], none), .ok true, true, none, UsageStats.zero⟩

/-- A manager with the failing high-priority provider and the healthy
fallback both registered and healthy. -/
def managerAB : AIProviderManager := ⟨[entryA, entryB], none⟩

/-- A manager with only the single failing provider. -/
def managerC : AIProviderManager := ⟨[entryC], none⟩

end Manager

/-! ## The virtual file system -/

namespace VFS

/-! ### Path strings

`normalizePath` is `path.replace(/\/+/g, '/').replace(/\/$/, '') || '/'`:
collapse every run of slashes, drop one trailing slash, and default the empty
result to `'/'`. -/

/-- The global replacement of `/\/+/g` by `'/'`: collapse each maximal run of
slashes to a single slash. -/
def collapseSlashes : List Char → List Char
  | [] => []
  | [c] => [c]
  | a :: b :: rest =>
    if a = '/' && b = '/' then collapseSlashes (b :: rest)
    else a :: collapseSlashes (b :: rest)

/-- The replacement of `/\/$/` by `''`: drop a single trailing slash. -/
def dropTrailingSlash : List Char → List Char
  | [] => []
  | [c] => if c = '/' then [] else [c]
  | a :: b :: rest => a :: dropTrailingSlash (b :: rest)

/-- `VirtualFileSystem.normalizePath`. -/
def normalizePath (p : String) : String :=
  let r := dropTrailingSlash (collapseSlashes p.data)
  if r.isEmpty then "/" else ⟨r⟩

/-- Index of the last `'/'` (JS `lastIndexOf`), `none` for `-1`. -/
def lastSlashIdx : List Char → Option Nat
  | [] => none
  | c :: cs =>
    match lastSlashIdx cs with
    | some i => some (i + 1)
    | none => if c = '/' then some 0 else none

/-- `VirtualFileSystem.parsePath`: split a path into `(directory, filename)`
at the last slash of its normalization.  When there is no slash
(`lastIndexOf` returns `-1`), JS `slice(0, -1)` drops the last character and
`slice(0)` keeps everything, which the last branch reproduces. -/
def parsePath (path : String) : String × String :=
  let np := normalizePath path
  match lastSlashIdx np.data with
  | some 0 => ("/", ⟨np.data.drop 1⟩)
  | some k => (⟨np.data.take k⟩, ⟨np.data.drop (k + 1)⟩)
  | none => (⟨np.data.dropLast⟩, np)

/-! ### State

JavaScript aliases file/directory objects between `state.files`,
`state.directories` and the `children` arrays, so the embedding separates
object identity from map membership: `heap` maps every allocated object id to
its current field values (cells are never deallocated — a reference kept in
an old array still reads the live object), while `files` and `directories`
are the key lists of the two insertion-ordered `Map`s.  Uuids become the
fresh counter `nextId`.  `Date` fields, file metadata, mime/language/type
inference and the watcher and snapshot APIs are omitted; `emitEvent` calls
external callbacks only and never changes this state. -/

/-- A `VirtualFile` object (fields the operations read and write). -/
structure VFile where
  id : Nat
  name : String
  path : String
  content : String
  size : Nat
  parentId : Option Nat
deriving Repr, DecidableEq

/-- A `VirtualDirectory` object; `children` holds references (ids). -/
structure VDir where
  id : Nat
  name : String
  path : String
  parentId : Option Nat
  children : List Nat
deriving Repr, DecidableEq

/-- A heap cell: one allocated file or directory object. -/
inductive Node where
  | file (f : VFile)
  | dir (d : VDir)
deriving Repr, DecidableEq

/-- Children of a heap cell (a file has none). -/
def Node.kids : Node → List Nat
  | .file _ => []
  | .dir d => d.children

/-- The `FileSystemOperationType` enum members the class records. -/
inductive OpType where
  | createFile
  | createDirectory
  | updateFile
  | deleteFile
  | deleteDirectory
  | moveFile
  | moveDirectory
deriving Repr, DecidableEq

/-- A recorded `FileSystemOperation` (timestamps omitted). -/
structure FSOperation where
  type : OpType
  path : String
  content : Option String
  newPath : Option String
deriving Repr, DecidableEq

/-- The `FileSystemState` of a `VirtualFileSystem` instance. -/
structure FileSystemState where
  heap : Nat → Option Node
  files : List Nat
  directories : List Nat
  operations : List FSOperation
  currentPath : String
  rootId : Nat
  nextId : Nat

/-- `VirtualFileSystem.initializeState`: a root directory named `root` at
path `'/'` and otherwise empty state. -/
def initialState : FileSystemState where
  heap := fun j => if j = 0 then some (.dir ⟨0, "root", "/", none, []⟩) else none
  files := []
  directories := [0]
  operations := []
  currentPath := "/"
  rootId := 0
  nextId := 1

/-- Write one heap cell. -/
def heapSet (h : Nat → Option Node) (i : Nat) (n : Node) : Nat → Option Node :=
  fun j => if j = i then some n else h j

/-- `getFileByPath`: scan `state.files` in insertion order for the first
file whose `path` equals the normalized path; the result is its id. -/
def getFileId (s : FileSystemState) (path : String) : Option Nat :=
  let np := normalizePath path
  s.files.find? (fun i =>
    match s.heap i with
    | some (.file f) => f.path = np
    | _ => false)

/-- `getDirectoryByPath`, analogously on `state.directories`. -/
def getDirId (s : FileSystemState) (path : String) : Option Nat :=
  let np := normalizePath path
  s.directories.find? (fun i =>
    match s.heap i with
    | some (.dir d) => d.path = np
    | _ => false)

/-- The `maxOperationHistory` field (1000). -/
def maxOperationHistory : Nat := 1000

/-- `recordOperation` on the operations array: push, then when the length
exceeds `maxOperationHistory`, keep the last 1000 (`slice(-1000)`). -/
def recordOperationList (ops : List FSOperation) (op : FSOperation) : List FSOperation :=
  let ops1 := ops ++ [op]
  if ops1.length > maxOperationHistory then
    ops1.drop (ops1.length - maxOperationHistory)
  else ops1

/-- `recordOperation` on the whole state. -/
def recordOperation (s : FileSystemState) (op : FSOperation) : FileSystemState :=
  { s with operations := recordOperationList s.operations op }

/-- `parentDir.children.push(obj)`: append a reference to the cell of
`parentId` (a no-op on a non-directory cell, which no reachable call hits:
the parent id always comes from `ensureDirectoryExists`). -/
def pushChild (s : FileSystemState) (parentId childId : Nat) : FileSystemState :=
  match s.heap parentId with
  | some (.dir d) =>
    { s with heap := heapSet s.heap parentId (.dir { d with children := d.children ++ [childId] }) }
  | _ => s

/-- `parentDir.children = parentDir.children.filter(child => child.id !== x)`. -/
def removeChild (s : FileSystemState) (parentId childId : Nat) : FileSystemState :=
  match s.heap parentId with
  | some (.dir d) =>
    { s with heap := heapSet s.heap parentId (.dir { d with children := d.children.filter (fun c => c ≠ childId) }) }
  | _ => s

/-- The `if (obj.parentId) { … oldParentDir.children = filter … }` step
shared by the delete and move operations (a uuid `parentId`, a nonempty
string, is always truthy when present). -/
def unlinkFromParent (s : FileSystemState) (parent : Option Nat) (childId : Nat) :
    FileSystemState :=
  match parent with
  | some pid => removeChild s pid childId
  | none => s

/-- Read `file.parentId` through the heap. -/
def fileParentId (s : FileSystemState) (i : Nat) : Option Nat :=
  match s.heap i with
  | some (.file f) => f.parentId
  | _ => none

/-- Read `file.path` through the heap. -/
def filePathOf (s : FileSystemState) (i : Nat) : String :=
  match s.heap i with
  | some (.file f) => f.path
  | _ => ""

/-- The `file.path = …; file.parentId = …` writes of `moveFile`. -/
def setFileMoved (s : FileSystemState) (i : Nat) (path : String) (pid : Nat) :
    FileSystemState :=
  match s.heap i with
  | some (.file f) =>
    { s with heap := heapSet s.heap i (.file { f with path := path, parentId := some pid }) }
  | _ => s

/-- Read `directory.parentId` through the heap. -/
def dirParentId (s : FileSystemState) (i : Nat) : Option Nat :=
  match s.heap i with
  | some (.dir d) => d.parentId
  | _ => none

/-- Read `directory.path` through the heap. -/
def dirPathOf (s : FileSystemState) (i : Nat) : String :=
  match s.heap i with
  | some (.dir d) => d.path
  | _ => ""

/-- The `directory.path = …; directory.parentId = …` writes of
`moveDirectory`. -/
def setDirMoved (s : FileSystemState) (i : Nat) (path : String) (pid : Nat) :
    FileSystemState :=
  match s.heap i with
  | some (.dir d) =>
    { s with heap := heapSet s.heap i (.dir { d with path := path, parentId := some pid }) }
  | _ => s

/-- Fuel given to the mutually recursive directory-creation pair; each
nesting level of `ensureDirectoryExists` shortens the path, so this is ample
(the success lemma below needs only `2 * length + 2`). -/
def ensureFuel (p : String) : Nat := 4 * p.length + 16

mutual

/-- `VirtualFileSystem.ensureDirectoryExists`.  The JS original recurses
through `createDirectory`; on states with no root directory the pair loops
forever (a stack overflow), which the explicit fuel turns into an error that
carries the mutations made so far, as a thrown `RangeError` would. -/
def ensureDirectoryExists (fuel : Nat) (s : FileSystemState) (path : String) :
    Except String Nat × FileSystemState :=
  match fuel with
  | 0 => (.error "Maximum call stack size exceeded", s)
  | fuel + 1 =>
    let np := normalizePath path
    match getDirId s np with
    | some dId => (.ok dId, s)
    | none =>
      let parentPath := (parsePath np).1
      if parentPath ≠ np then
        match ensureDirectoryExists fuel s parentPath with
        | (.error e, s1) => (.error e, s1)
        | (.ok _, s1) => createDirectoryAux fuel s1 np
      else
        createDirectoryAux fuel s np

/-- `VirtualFileSystem.createDirectory`: reject an existing path, ensure the
parent, allocate the directory object, insert it into `state.directories`,
push it onto the parent's `children`, and record the operation. -/
def createDirectoryAux (fuel : Nat) (s : FileSystemState) (path : String) :
    Except String Nat × FileSystemState :=
  match fuel with
  | 0 => (.error "Maximum call stack size exceeded", s)
  | fuel + 1 =>
    let np := normalizePath path
    match getDirId s np with
    | some _ => (.error ("Directory already exists: " ++ np), s)
    | none =>
      let pp := parsePath np
      match ensureDirectoryExists fuel s pp.1 with
      | (.error e, s1) => (.error e, s1)
      | (.ok parentId, s1) =>
        let dId := s1.nextId
        let s2 : FileSystemState :=
          { s1 with
            heap := heapSet s1.heap dId (.dir ⟨dId, pp.2, np, some parentId, []⟩),
            directories := s1.directories ++ [dId],
            nextId := s1.nextId + 1 }
        let s3 := pushChild s2 parentId dId
        (.ok dId, recordOperation s3 ⟨.createDirectory, np, none, none⟩)

end

/-- Public `createDirectory` entry point with its default fuel. -/
def createDirectory (s : FileSystemState) (path : String) :
    Except String Nat × FileSystemState :=
  createDirectoryAux (ensureFuel path) s path

/-- `VirtualFileSystem.createFile` (the `type` and `metadata` parameters,
used only for the omitted metadata fields, are dropped): reject when a file
already exists at the normalized path, ensure the parent directory, allocate
the file object (its `size` is the UTF-8 byte count of a `Blob` of the
content), insert it into `state.files`, push it onto the parent's
`children`, and record the operation. -/
def createFile (s : FileSystemState) (path content : String) :
    Except String Nat × FileSystemState :=
  let np := normalizePath path
  let pp := parsePath np
  match getFileId s np with
  | some _ => (.error ("File already exists: " ++ np), s)
  | none =>
    match ensureDirectoryExists (ensureFuel pp.1) s pp.1 with
    | (.error e, s1) => (.error e, s1)
    | (.ok parentId, s1) =>
      let fId := s1.nextId
      let s2 : FileSystemState :=
        { s1 with
          heap := heapSet s1.heap fId (.file ⟨fId, pp.2, np, content, content.utf8ByteSize, some parentId⟩),
          files := s1.files ++ [fId],
          nextId := s1.nextId + 1 }
      let s3 := pushChild s2 parentId fId
      (.ok fId, recordOperation s3 ⟨.createFile, np, some content, none⟩)

/-- `VirtualFileSystem.readFile`: the content of the file at the path, or a
thrown `File not found: <path>` (with the unnormalized argument, as in the
source); the state is not touched. -/
def readFile (s : FileSystemState) (path : String) : Except String String :=
  match getFileId s path with
  | none => .error ("File not found: " ++ path)
  | some fId =>
    match s.heap fId with
    | some (.file f) => .ok f.content
    | _ => .error ("File not found: " ++ path)

/-- `VirtualFileSystem.updateFile`: overwrite content and size of the file
object at the path and record the operation (with the unnormalized path). -/
def updateFile (s : FileSystemState) (path content : String) :
    Except String Nat × FileSystemState :=
  match getFileId s path with
  | none => (.error ("File not found: " ++ path), s)
  | some fId =>
    match s.heap fId with
    | some (.file f) =>
      let s1 : FileSystemState :=
        { s with heap := heapSet s.heap fId (.file { f with content := content, size := content.utf8ByteSize }) }
      (.ok fId, recordOperation s1 ⟨.updateFile, path, some content, none⟩)
    | _ => (.error ("File not found: " ++ path), s)

/-- `VirtualFileSystem.deleteFile`: `false` when nothing is at the path;
otherwise remove the reference from the parent's `children` (the uuid
`parentId` is a nonempty string, hence always truthy when present), delete
the id from `state.files`, record the operation, and return `true`. -/
def deleteFile (s : FileSystemState) (path : String) :
    Except String Bool × FileSystemState :=
  match getFileId s path with
  | none => (.ok false, s)
  | some fId =>
    match s.heap fId with
    | some (.file f) =>
      let s1 := unlinkFromParent s f.parentId fId
      let s2 : FileSystemState := { s1 with files := s1.files.filter (fun i => i ≠ fId) }
      (.ok true, recordOperation s2 ⟨.deleteFile, path, none, none⟩)
    | _ => (.ok false, s)

mutual

/-- `VirtualFileSystem.deleteDirectory`: `false` when nothing is at the
path; `Cannot delete root directory` when the found directory is the root;
`Directory is not empty…` when non-recursive on a non-empty directory;
otherwise recursively delete the children (iterating the array captured at
loop start — nested deletions rebind `children` to fresh filtered arrays, so
the iteration is over a snapshot), unlink from the parent, delete the id
from `state.directories`, and record the operation. -/
def deleteDirectoryAux (fuel : Nat) (s : FileSystemState) (path : String) (recursive : Bool) :
    Except String Bool × FileSystemState :=
  match fuel with
  | 0 => (.error "Maximum call stack size exceeded", s)
  | fuel + 1 =>
    match getDirId s path with
    | none => (.ok false, s)
    | some dId =>
      if dId = s.rootId then (.error "Cannot delete root directory", s)
      else
        match s.heap dId with
        | some (.dir d) =>
          if !recursive && !d.children.isEmpty then
            (.error "Directory is not empty. Use recursive option to delete.", s)
          else
            match (if recursive then deleteChildren fuel s d.children else (.ok (), s)) with
            | (.error e, s1) => (.error e, s1)
            | (.ok _, s1) =>
              let pId := match s1.heap dId with
                | some (.dir d1) => d1.parentId
                | _ => d.parentId
              let s2 := unlinkFromParent s1 pId dId
              let s3 : FileSystemState :=
                { s2 with directories := s2.directories.filter (fun i => i ≠ dId) }
              (.ok true, recordOperation s3 ⟨.deleteDirectory, path, none, none⟩)
        | _ => (.ok false, s)
termination_by (fuel, 0)

/-- The `for (const child of directory.children)` loop of `deleteDirectory`:
each iteration reads the live child object for `isDirectory` and `path` and
deletes it by path (a thrown error aborts the loop and propagates, keeping
the mutations made so far). -/
def deleteChildren (fuel : Nat) (s : FileSystemState) :
    List Nat → Except String Unit × FileSystemState
  | [] => (.ok (), s)
  | c :: rest =>
    match s.heap c with
    | some (.dir cd) =>
      match deleteDirectoryAux fuel s cd.path true with
      | (.error e, s1) => (.error e, s1)
      | (.ok _, s1) => deleteChildren fuel s1 rest
    | some (.file cf) =>
      match deleteFile s cf.path with
      | (.error e, s1) => (.error e, s1)
      | (.ok _, s1) => deleteChildren fuel s1 rest
    | none => deleteChildren fuel s rest
termination_by l => (fuel, l.length + 1)

end

/-- Public `deleteDirectory` entry point; the fuel bounds the recursion
depth, which on well-formed states is at most the number of directories. -/
def deleteDirectory (s : FileSystemState) (path : String) (recursive : Bool) :
    Except String Bool × FileSystemState :=
  deleteDirectoryAux (s.directories.length + 2) s path recursive

/-- `VirtualFileSystem.copyFile`: read the source file and create the target
from its content (type and metadata, omitted here, are also copied). -/
def copyFile (s : FileSystemState) (sourcePath targetPath : String) :
    Except String Nat × FileSystemState :=
  match getFileId s sourcePath with
  | none => (.error ("Source file not found: " ++ sourcePath), s)
  | some fId =>
    match s.heap fId with
    | some (.file f) => createFile s targetPath f.content
    | _ => (.error ("Source file not found: " ++ sourcePath), s)

/-- JS `s.slice(k)` for a nonnegative UTF-16 index, on code points.  (When
`k` falls inside a surrogate pair JS produces a lone surrogate, which
`Char` cannot represent; the operations proved about never hit that case.) -/
def sliceFromU16 : List Char → Nat → List Char
  | l, 0 => l
  | [], _ + 1 => []
  | c :: cs, n + 1 =>
    if c.val ≥ 0x10000 then sliceFromU16 cs n else sliceFromU16 cs (n + 1 - 1)

mutual

/-- `VirtualFileSystem.updateChildrenPaths`: rewrite each child's path by
replacing the old base prefix (`child.path.slice(oldBasePath.length)`, a
UTF-16 index) with the new base, recursing into child directories.  A cycle
among the children (the root moved into itself) makes the JS original
overflow the stack, which the fuel again turns into an error. -/
def updateChildrenPaths (fuel : Nat) (s : FileSystemState) (dId : Nat)
    (oldBase newBase : String) : Except String Unit × FileSystemState :=
  match fuel with
  | 0 => (.error "Maximum call stack size exceeded", s)
  | fuel + 1 =>
    match s.heap dId with
    | some (.dir d) => updateChildrenLoop fuel s d.children oldBase newBase
    | _ => (.ok (), s)
termination_by (fuel, 0)

/-- The loop body of `updateChildrenPaths` over the snapshot of `children`. -/
def updateChildrenLoop (fuel : Nat) (s : FileSystemState) :
    List Nat → String → String → Except String Unit × FileSystemState
  | [], _, _ => (.ok (), s)
  | c :: rest, oldBase, newBase =>
    match s.heap c with
    | some (.file f) =>
      let s1 : FileSystemState :=
        { s with heap := heapSet s.heap c (.file { f with path := newBase ++ ⟨sliceFromU16 f.path.data (utf16Length oldBase)⟩ }) }
      updateChildrenLoop fuel s1 rest oldBase newBase
    | some (.dir d) =>
      let s1 : FileSystemState :=
        { s with heap := heapSet s.heap c (.dir { d with path := newBase ++ ⟨sliceFromU16 d.path.data (utf16Length oldBase)⟩ }) }
      match updateChildrenPaths fuel s1 c oldBase newBase with
      | (.error e, s2) => (.error e, s2)
      | (.ok _, s2) => updateChildrenLoop fuel s2 rest oldBase newBase
    | none => updateChildrenLoop fuel s rest oldBase newBase
termination_by l _ _ => (fuel, l.length + 1)

end

/-- `VirtualFileSystem.moveFile` on an already looked-up source file id. -/
def moveFileAux (s : FileSystemState) (fId : Nat) (targetPath : String) :
    Except String Bool × FileSystemState :=
  let nt := normalizePath targetPath
  let targetDir := (parsePath nt).1
  match ensureDirectoryExists (ensureFuel targetDir) s targetDir with
  | (.error e, s1) => (.error e, s1)
  | (.ok newParentId, s1) =>
    let s2 := unlinkFromParent s1 (fileParentId s1 fId) fId
    let oldPath := filePathOf s2 fId
    let s3 := setFileMoved s2 fId nt newParentId
    let s4 := pushChild s3 newParentId fId
    (.ok true, recordOperation s4 ⟨.moveFile, oldPath, none, some nt⟩)

/-- `VirtualFileSystem.moveDirectory` on an already looked-up source
directory id.  Note the order: the path and parent of the moved directory
are rewritten and the children are walked before the directory is pushed
onto the new parent's `children`. -/
def moveDirAux (fuel : Nat) (s : FileSystemState) (dId : Nat) (targetPath : String) :
    Except String Bool × FileSystemState :=
  let nt := normalizePath targetPath
  let targetParent := (parsePath nt).1
  match ensureDirectoryExists (ensureFuel targetParent) s targetParent with
  | (.error e, s1) => (.error e, s1)
  | (.ok newParentId, s1) =>
    let s2 := unlinkFromParent s1 (dirParentId s1 dId) dId
    let oldPath := dirPathOf s2 dId
    let s3 := setDirMoved s2 dId nt newParentId
    match updateChildrenPaths fuel s3 dId oldPath nt with
    | (.error e, s4) => (.error e, s4)
    | (.ok _, s4) =>
      let s5 := pushChild s4 newParentId dId
      (.ok true, recordOperation s5 ⟨.moveDirectory, oldPath, none, some nt⟩)

/-- `VirtualFileSystem.move`: dispatch on whether the normalized source is a
file or a directory. -/
def move (s : FileSystemState) (sourcePath targetPath : String) :
    Except String Bool × FileSystemState :=
  let ns := normalizePath sourcePath
  let nt := normalizePath targetPath
  match getFileId s ns with
  | some fId => moveFileAux s fId nt
  | none =>
    match getDirId s ns with
    | some dId => moveDirAux (s.directories.length + s.files.length + 2) s dId nt
    | none => (.error ("Source not found: " ++ ns), s)

/-! ### Reachability -/

/-- One public state-changing (or state-reading) call of the CRUD API.  The
watcher and snapshot methods, which live beside the `state` field, are not
part of the modelled surface. -/
inductive Op where
  | createFile (path content : String)
  | createDirectory (path : String)
  | readFile (path : String)
  | updateFile (path content : String)
  | deleteFile (path : String)
  | deleteDirectory (path : String) (recursive : Bool)
  | move (sourcePath targetPath : String)
  | copyFile (sourcePath targetPath : String)

/-- The state after one call; a thrown error leaves the mutations made
before the throw in place, exactly as on the JS object. -/
def applyOp (s : FileSystemState) : Op → FileSystemState
  | .createFile p c => (createFile s p c).2
  | .createDirectory p => (createDirectory s p).2
  | .readFile _ => s
  | .updateFile p c => (updateFile s p c).2
  | .deleteFile p => (deleteFile s p).2
  | .deleteDirectory p r => (deleteDirectory s p r).2
  | .move src tgt => (move s src tgt).2
  | .copyFile src tgt => (copyFile s src tgt).2

/-- States reachable from a fresh `VirtualFileSystem`. -/
inductive Reachable : FileSystemState → Prop where
  | init : Reachable initialState
  | step {s : FileSystemState} (op : Op) : Reachable s → Reachable (applyOp s op)

/-- A call that moves the root directory itself: a `move` whose normalized
source resolves to no file but to the root directory. -/
def movesRoot (s : FileSystemState) : Op → Prop
  | .move src _ =>
    getFileId s (normalizePath src) = none ∧ getDirId s (normalizePath src) = some s.rootId
  | _ => False

/-- States reachable without ever moving the root directory itself. -/
inductive ReachableSafe : FileSystemState → Prop where
  | init : ReachableSafe initialState
  | step {s : FileSystemState} (op : Op) :
      ReachableSafe s → ¬ movesRoot s op → ReachableSafe (applyOp s op)

end VFS

/-! ## Theorems -/

/-- C3: every route of the auth router (`POST /register`, `POST /login`,
`POST /logout`, `POST /refresh`, `GET /profile`) and `POST /chat` of the AI
router responds 501 with `success: false`, for every request: the handlers
ignore the request entirely. -/
theorem C3_stub_routes_501 : ∀ req : Routes.HttpRequest,
    (Routes.authRegister req).status = 501 ∧ (Routes.authRegister req).body.success = false ∧
    (Routes.authLogin req).status = 501 ∧ (Routes.authLogin req).body.success = false ∧
    (Routes.authLogout req).status = 501 ∧ (Routes.authLogout req).body.success = false ∧
    (Routes.authRefresh req).status = 501 ∧ (Routes.authRefresh req).body.success = false ∧
    (Routes.authProfile req).status = 501 ∧ (Routes.authProfile req).body.success = false ∧
    (Routes.aiChat req).status = 501 ∧ (Routes.aiChat req).body.success = false := by
  intro req
  exact ⟨rfl, rfl, rfl, rfl, rfl, rfl, rfl, rfl, rfl, rfl, rfl, rfl⟩

/-- C6: `GET /api/projects` responds 200 with exactly the array the
`findMany` query returned, and 500 with `{ error: '無法取得專案' }` when the
query throws; the handler is a pure function of the query outcome and keeps
no state between requests. -/
theorem C6_get_projects : (∀ ps : List Routes.Project,
      Routes.getProjects (.ok ps) = ⟨200, .list ps⟩) ∧
    ∀ e : Unit, Routes.getProjects (.error e) = ⟨500, .errorMsg "無法取得專案"⟩ := by
  exact ⟨fun _ => rfl, fun _ => rfl⟩

/-- Inserting an entry with `Map.set` leaves it in the map. -/
theorem mem_setProvider (l : List Manager.ProviderEntry) (e : Manager.ProviderEntry) :
    e ∈ Manager.setProvider l e := by
  unfold Manager.setProvider
  split
  · next hmem =>
    obtain ⟨x, hx, hxid⟩ := List.any_eq_true.mp hmem
    simp only [decide_eq_true_eq] at hxid
    have hmem2 := List.mem_map_of_mem (fun y => if y.id = e.id then e else y) hx
    simp only [hxid, if_pos rfl] at hmem2
    exact hmem2
  · exact List.mem_append_right _ (List.mem_singleton.mpr rfl)

/-- C5: the mock provider always succeeds to initialize (setting
`isInitialized`), its health check always reports `true` regardless of state
or history, a freshly registered mock entry carries that health behaviour,
and `performHealthChecks` therefore leaves every such entry healthy. -/
theorem C5_mock_always_healthy :
    (∀ p : Manager.MockProvider,
      Manager.MockProvider.init p = .ok { p with isInitialized := true }) ∧
    (∀ p : Manager.MockProvider, Manager.MockProvider.healthCheckRun p = .ok true) ∧
    (∀ (m : Manager.AIProviderManager) (cfg : Manager.AIProviderConfig) gen stream,
      ∃ e ∈ (Manager.registerMock m cfg gen stream).providers,
        e.id = cfg.id ∧ e.healthOutcome = .ok true ∧ e.isHealthy = true) ∧
    ∀ (m : Manager.AIProviderManager) (k : Nat) (e : Manager.ProviderEntry),
      m.providers.get? k = some e → e.healthOutcome = .ok true →
      ∃ e', (Manager.performHealthChecks m).providers.get? k = some e' ∧
        e'.isHealthy = true ∧ e'.errorMessage = none := by
  refine ⟨fun _ => rfl, fun _ => rfl, ?_, ?_⟩
  · intro m cfg gen stream
    exact ⟨_, mem_setProvider m.providers _, rfl, rfl, rfl⟩
  · intro m k e hk hh
    unfold Manager.performHealthChecks
    simp only [List.get?_eq_getElem?] at hk ⊢
    rw [List.getElem?_map, hk]
    exact ⟨_, rfl, by simp [hh]⟩

/-- Closed instance of `C5_mock_always_healthy`, part four, at a concrete
manager. -/
theorem C5_mock_always_healthy_witness :
    ∃ e', (Manager.performHealthChecks
        ⟨[⟨"mock", "Mock", some 1, .error "x", ([], none), .ok true, true, none,
          Manager.UsageStats.zero⟩], none⟩).providers.get? 0 = some e' ∧
      e'.isHealthy = true ∧ e'.errorMessage = none :=
  C5_mock_always_healthy.2.2.2
    ⟨[⟨"mock", "Mock", some 1, .error "x", ([], none), .ok true, true, none,
      Manager.UsageStats.zero⟩], none⟩ 0 _ rfl rfl

/-! ### C2: provider selection -/

theorem providerLe_trans (a b c : Manager.ProviderEntry) :
    Manager.providerLe a b = true → Manager.providerLe b c = true →
    Manager.providerLe a c = true := by
  unfold Manager.providerLe
  simp only [decide_eq_true_eq]
  omega

theorem providerLe_total (a b : Manager.ProviderEntry) :
    (Manager.providerLe a b || Manager.providerLe b a) = true := by
  unfold Manager.providerLe
  rcases Int.le_total (Manager.priorVal a) (Manager.priorVal b) with h | h <;> simp [h]

/-- A found preferred provider is registered and healthy. -/
theorem preferredHit_mem (m : Manager.AIProviderManager) (pref : Option String)
    (e : Manager.ProviderEntry) (h : Manager.preferredHit m pref = some e) :
    e ∈ m.providers ∧ e.isHealthy = true := by
  unfold Manager.preferredHit at h
  cases pref with
  | none => simp at h
  | some p =>
    simp only at h
    cases hf : Manager.findProvider m p with
    | none => rw [hf] at h; simp at h
    | some x =>
      rw [hf] at h
      simp only at h
      by_cases hh : x.isHealthy = true
      · rw [if_pos hh] at h
        cases h
        exact ⟨List.mem_of_find?_eq_some hf, hh⟩
      · rw [if_neg (by simpa using hh)] at h
        cases h

/-- When some registered provider is healthy, `selectByPriority` returns a
healthy registered provider of maximal priority. -/
theorem selectByPriority_ok (m : Manager.AIProviderManager) (e : Manager.ProviderEntry)
    (he : e ∈ m.providers) (hh : e.isHealthy = true) :
    ∃ r, Manager.selectByPriority m = .ok r ∧ r ∈ m.providers ∧ r.isHealthy = true ∧
      ∀ x ∈ m.providers, x.isHealthy = true → Manager.priorVal x ≤ Manager.priorVal r := by
  unfold Manager.selectByPriority
  have hmemf : e ∈ m.providers.filter (fun x => x.isHealthy) :=
    List.mem_filter.mpr ⟨he, hh⟩
  have hperm := List.mergeSort_perm (m.providers.filter (fun x => x.isHealthy)) Manager.providerLe
  have hsorted := List.sorted_mergeSort providerLe_trans providerLe_total
    (m.providers.filter (fun x => x.isHealthy))
  cases hsort : (m.providers.filter (fun x => x.isHealthy)).mergeSort Manager.providerLe with
  | nil =>
    exfalso
    rw [hsort] at hperm
    exact (List.not_mem_nil e) (hperm.symm.subset hmemf)
  | cons r rest =>
    rw [hsort] at hperm hsorted
    have hrmem : r ∈ m.providers.filter (fun x => x.isHealthy) :=
      hperm.subset (List.mem_cons_self r rest)
    refine ⟨r, rfl, (List.mem_filter.mp hrmem).1, (List.mem_filter.mp hrmem).2, ?_⟩
    intro x hx hxh
    have hxf : x ∈ m.providers.filter (fun y => y.isHealthy) := List.mem_filter.mpr ⟨hx, hxh⟩
    have hxs : x ∈ r :: rest := hperm.symm.subset hxf
    rcases List.mem_cons.mp hxs with hxr | hxrest
    · subst hxr; exact le_refl _
    · have := (List.pairwise_cons.mp hsorted).1 x hxrest
      unfold Manager.providerLe at this
      simpa using this

/-- When no registered provider is healthy, `selectByPriority` throws. -/
theorem selectByPriority_error_of_all (m : Manager.AIProviderManager)
    (hall : ∀ e ∈ m.providers, e.isHealthy = false) :
    Manager.selectByPriority m = .error "No healthy AI providers available" := by
  unfold Manager.selectByPriority
  have hfilter : m.providers.filter (fun x => x.isHealthy) = [] := by
    rw [List.filter_eq_nil_iff]
    intro e he
    simp [hall e he]
  rw [hfilter, List.mergeSort_nil]

/-- C2: `getAvailableProvider` returns the preferred provider whenever it is
specified, registered and healthy (`preferredHit`); otherwise, whenever any
registered provider is healthy, it returns a healthy registered provider of
maximal priority; and it throws `No healthy AI providers available` exactly
when no registered provider is healthy. -/
theorem C2_getAvailableProvider (m : Manager.AIProviderManager) (pref : Option String) :
    (∀ e, Manager.preferredHit m pref = some e →
      Manager.getAvailableProvider m pref = .ok e) ∧
    ((∃ e ∈ m.providers, e.isHealthy = true) →
      ∃ r, Manager.getAvailableProvider m pref = .ok r ∧ r ∈ m.providers ∧
        r.isHealthy = true ∧
        (Manager.preferredHit m pref = none →
          ∀ x ∈ m.providers, x.isHealthy = true →
            Manager.priorVal x ≤ Manager.priorVal r)) ∧
    (Manager.getAvailableProvider m pref = .error "No healthy AI providers available" ↔
      ∀ e ∈ m.providers, e.isHealthy = false) := by
  refine ⟨?_, ?_, ?_, ?_⟩
  · intro e he
    unfold Manager.getAvailableProvider
    rw [he]
  · rintro ⟨e, he, hh⟩
    unfold Manager.getAvailableProvider
    cases hhit : Manager.preferredHit m pref with
    | some x =>
      obtain ⟨hxm, hxh⟩ := preferredHit_mem m pref x hhit
      exact ⟨x, rfl, hxm, hxh, fun hcontra => nomatch hcontra⟩
    | none =>
      obtain ⟨r, hr, hrm, hrh, hmax⟩ := selectByPriority_ok m e he hh
      exact ⟨r, hr, hrm, hrh, fun _ => hmax⟩
  · intro herr
    unfold Manager.getAvailableProvider at herr
    cases hhit : Manager.preferredHit m pref with
    | some x => rw [hhit] at herr; cases herr
    | none =>
      rw [hhit] at herr
      have herr2 : Manager.selectByPriority m = .error "No healthy AI providers available" := herr
      by_contra hnot
      push_neg at hnot
      obtain ⟨e, he, hh⟩ := hnot
      have hh2 : e.isHealthy = true := by
        cases h2 : e.isHealthy
        · exact absurd h2 hh
        · rfl
      obtain ⟨r, hr, -⟩ := selectByPriority_ok m e he hh2
      rw [hr] at herr2
      cases herr2
  · intro hall
    unfold Manager.getAvailableProvider
    cases hhit : Manager.preferredHit m pref with
    | some x =>
      obtain ⟨hxm, hxh⟩ := preferredHit_mem m pref x hhit
      rw [hall x hxm] at hxh
      cases hxh
    | none =>
      exact selectByPriority_error_of_all m hall

/-- Closed instance of `C2_getAvailableProvider` on a two-provider manager:
the unhealthy preferred provider is skipped and the healthier, higher
priority provider is selected. -/
theorem C2_getAvailableProvider_witness :
    ∃ r, Manager.getAvailableProvider
        ⟨[⟨"openai", "OpenAI", some 5, .error "x", ([], none), .ok true, false, none,
            Manager.UsageStats.zero⟩,
          ⟨"mock", "Mock", some 1, .error "x", ([], none), .ok true, true, none,
            Manager.UsageStats.zero⟩], none⟩ (some "openai") = .ok r ∧
      r ∈ [⟨"openai", "OpenAI", some 5, .error "x", ([], none), .ok true, false, none,
            Manager.UsageStats.zero⟩,
          ⟨"mock", "Mock", some 1, .error "x", ([], none), .ok true, true, none,
            Manager.UsageStats.zero⟩] ∧
      r.isHealthy = true ∧
      (Manager.preferredHit
          ⟨[⟨"openai", "OpenAI", some 5, .error "x", ([], none), .ok true, false, none,
              Manager.UsageStats.zero⟩,
            ⟨"mock", "Mock", some 1, .error "x", ([], none), .ok true, true, none,
              Manager.UsageStats.zero⟩], none⟩ (some "openai") = none →
        ∀ x ∈ [⟨"openai", "OpenAI", some 5, .error "x", ([], none), .ok true, false, none,
              Manager.UsageStats.zero⟩,
            ⟨"mock", "Mock", some 1, .error "x", ([], none), .ok true, true, none,
              Manager.UsageStats.zero⟩], x.isHealthy = true →
          Manager.priorVal x ≤ Manager.priorVal r) :=
  (C2_getAvailableProvider _ (some "openai")).2.1
    ⟨⟨"mock", "Mock", some 1, .error "x", ([], none), .ok true, true, none,
      Manager.UsageStats.zero⟩, by simp, rfl⟩

/-! ### C1: the failover policy -/

/-- Priority selection on `managerAB` picks the failing high-priority
provider. -/
theorem gav_managerAB :
    Manager.getAvailableProvider Manager.managerAB none = .ok Manager.entryA := by
  unfold Manager.getAvailableProvider Manager.preferredHit Manager.selectByPriority
  have hpair : List.Pairwise (fun a b => Manager.providerLe a b = true)
      (Manager.managerAB.providers.filter (fun x => x.isHealthy)) := by decide
  rw [List.mergeSort_of_sorted hpair]
  rfl

/-- After the failure is recorded, priority selection picks the fallback. -/
theorem gav_managerAB_marked :
    Manager.getAvailableProvider
      (Manager.markProviderUnhealthy Manager.managerAB "anthropic" "A down") none =
      .ok Manager.entryB := by
  unfold Manager.getAvailableProvider Manager.preferredHit Manager.selectByPriority
  have hpair : List.Pairwise (fun a b => Manager.providerLe a b = true)
      (((Manager.markProviderUnhealthy Manager.managerAB "anthropic" "A down").providers).filter
        (fun x => x.isHealthy)) := by decide
  rw [List.mergeSort_of_sorted hpair]
  rfl

/-- Priority selection on the one-provider manager picks it. -/
theorem gav_managerC :
    Manager.getAvailableProvider Manager.managerC none = .ok Manager.entryC := by
  unfold Manager.getAvailableProvider Manager.preferredHit Manager.selectByPriority
  have hpair : List.Pairwise (fun a b => Manager.providerLe a b = true)
      (Manager.managerC.providers.filter (fun x => x.isHealthy)) := by decide
  rw [List.mergeSort_of_sorted hpair]
  rfl

/-- C1, counterexample to the claimed universal retry: on `managerAB` with
no preferred provider, the chosen provider (`entryA`) throws, a healthy
fallback (`entryB`) remains whose generation succeeds, yet `generateContent`
propagates the first error without retrying — the retry branch is guarded by
`if (preferredProvider)`.  The stream call likewise propagates after marking
the provider unhealthy. -/
theorem C1_no_retry_cx :
    Manager.getAvailableProvider Manager.managerAB none = .ok Manager.entryA ∧
    Manager.entryA.genOutcome = .error "A down" ∧
    Manager.generateContent Manager.managerAB none =
      (.error "A down", Manager.markProviderUnhealthy Manager.managerAB "anthropic" "A down") ∧
    Manager.getAvailableProvider
      (Manager.markProviderUnhealthy Manager.managerAB "anthropic" "A down") none =
      .ok Manager.entryB ∧
    Manager.entryB.genOutcome = .ok ⟨"mock response", none⟩ ∧
    Manager.generateContentStream Manager.managerAB none =
      (([⟨"partial", false, none⟩], some "A down"),
        Manager.markProviderUnhealthy Manager.managerAB "anthropic" "A down") := by
  refine ⟨gav_managerAB, rfl, ?_, gav_managerAB_marked, rfl, ?_⟩
  · unfold Manager.generateContent
    rw [gav_managerAB]
    rfl
  · unfold Manager.generateContentStream
    rw [gav_managerAB]
    rfl

/-- C1, amended: a failing provider is always marked unhealthy, but the
manager retries only when a preferred provider was specified — the retry
re-runs the selection by priority among the remaining healthy providers with
no preference, so a failure there (or any failure of a no-preference call)
propagates, and `generateContentStream` never retries.  Parts three and four
describe the retry call itself, so with part two they bound the retries of
any call by exactly one. -/
theorem C1_retry_policy (m : Manager.AIProviderManager) :
    (∀ prov err, Manager.getAvailableProvider m none = .ok prov →
      prov.genOutcome = .error err →
      Manager.generateContent m none =
        (.error err, Manager.markProviderUnhealthy m prov.id err)) ∧
    (∀ p prov err, Manager.getAvailableProvider m (some p) = .ok prov →
      prov.genOutcome = .error err →
      Manager.generateContent m (some p) =
        Manager.generateContentNoPref (Manager.markProviderUnhealthy m prov.id err)) ∧
    (∀ prov resp, Manager.getAvailableProvider m none = .ok prov →
      prov.genOutcome = .ok resp →
      Manager.generateContentNoPref m =
        (.ok resp, Manager.updateUsageStats m prov.id resp.usage)) ∧
    (∀ prov err, Manager.getAvailableProvider m none = .ok prov →
      prov.genOutcome = .error err →
      Manager.generateContentNoPref m =
        (.error err, Manager.markProviderUnhealthy m prov.id err)) ∧
    (∀ pref prov chunks err, Manager.getAvailableProvider m pref = .ok prov →
      prov.streamOutcome = (chunks, some err) →
      Manager.generateContentStream m pref =
        ((chunks, some err), Manager.markProviderUnhealthy m prov.id err)) := by
  refine ⟨?_, ?_, ?_, ?_, ?_⟩
  · intro prov err h1 h2
    unfold Manager.generateContent
    simp only [h1, h2]
  · intro p prov err h1 h2
    unfold Manager.generateContent
    simp only [h1, h2]
  · intro prov resp h1 h2
    unfold Manager.generateContentNoPref
    simp only [h1, h2]
  · intro prov err h1 h2
    unfold Manager.generateContentNoPref
    simp only [h1, h2]
  · intro pref prov chunks err h1 h2
    unfold Manager.generateContentStream
    simp only [h1, h2]

/-- Closed instances of `C1_retry_policy`: the no-preference failure on
`managerC`, the preferred-provider retry and the stream failure on
`managerAB`. -/
theorem C1_retry_policy_witness :
    Manager.generateContent Manager.managerC none =
      (.error "down", Manager.markProviderUnhealthy Manager.managerC "mock" "down") ∧
    Manager.generateContent Manager.managerAB (some "anthropic") =
      Manager.generateContentNoPref
        (Manager.markProviderUnhealthy Manager.managerAB "anthropic" "A down") ∧
    Manager.generateContentStream Manager.managerAB (some "anthropic") =
      (([⟨"partial", false, none⟩], some "A down"),
        Manager.markProviderUnhealthy Manager.managerAB "anthropic" "A down") :=
  ⟨(C1_retry_policy Manager.managerC).1 Manager.entryC "down" gav_managerC rfl,
   (C1_retry_policy Manager.managerAB).2.1 "anthropic" Manager.entryA "A down" rfl rfl,
   (C1_retry_policy Manager.managerAB).2.2.2.2 (some "anthropic") Manager.entryA
     [⟨"partial", false, none⟩] "A down" rfl rfl⟩

/-! ### C9: project creation validation -/

/-- C9: `POST /api/projects` responds 400 and never reaches the database
when `name` is absent, JSON `null`, not a string, empty after trimming, or
longer than 255 UTF-16 units after trimming; otherwise it strips
`<script>...</script>` blocks from the trimmed name and from the stringified
description (a falsy description is stored as `null`), and — when the
insert succeeds — responds 201 with the created project. -/
theorem C9_create_project (b : Routes.CreateProjectBody)
    (db : Routes.ProjectData → Except Unit Routes.Project) :
    ((b.name = none ∨ b.name = some .null ∨ (∀ s, b.name ≠ some (.str s)) ∨
      (∃ s, b.name = some (.str s) ∧
        (utf16Length (jsTrim s) = 0 ∨ utf16Length (jsTrim s) > 255))) →
      (Routes.createProject b db).1.status = 400 ∧ (Routes.createProject b db).2 = none) ∧
    (∀ s proj, b.name = some (.str s) →
      utf16Length (jsTrim s) ≠ 0 → ¬ utf16Length (jsTrim s) > 255 →
      db ⟨stripScripts (jsTrim s),
        if Routes.jTruthy b.description then
          some (stripScripts (Routes.jToString b.description)) else none⟩ = .ok proj →
      Routes.createProject b db =
        (⟨201, .single proj⟩,
          some ⟨stripScripts (jsTrim s),
            if Routes.jTruthy b.description then
              some (stripScripts (Routes.jToString b.description)) else none⟩)) := by
  constructor
  · intro h
    cases hb : b.name with
    | none => simp [Routes.createProject, hb]
    | some v =>
      cases v with
      | null => simp [Routes.createProject, hb]
      | bool x => simp [Routes.createProject, hb]
      | num n => simp [Routes.createProject, hb]
      | str s =>
        rcases h with h | h | h | ⟨s2, hs2, hlen⟩
        · rw [hb] at h; cases h
        · rw [hb] at h; cases h
        · exact absurd hb (h s)
        · rw [hb] at hs2
          cases hs2
          unfold Routes.createProject
          rw [hb]
          rcases hlen with hz | hgt
          · simp [hz]
          · have hnz : ¬ utf16Length (jsTrim s) = 0 := by omega
            simp [hnz, hgt]
  · intro s proj hname h0 h255 hdb
    unfold Routes.createProject
    rw [hname]
    simp only [h0, h255, if_false]
    simp [h0, h255, hdb]

/-- Closed instances of `C9_create_project`: a numeric name is rejected
without touching the database; a valid name is trimmed, sanitised and
created. -/
theorem C9_create_project_witness :
    ((Routes.createProject ⟨some (.num 3), none⟩
        (fun d => .ok ⟨"p1", d.name, d.description, []⟩)).1.status = 400 ∧
      (Routes.createProject ⟨some (.num 3), none⟩
        (fun d => .ok ⟨"p1", d.name, d.description, []⟩)).2 = none) ∧
    Routes.createProject ⟨some (.str "  hi<script>a</script>  "), some (.num 5)⟩
        (fun d => .ok ⟨"p1", d.name, d.description, []⟩) =
      (⟨201, .single ⟨"p1", stripScripts (jsTrim "  hi<script>a</script>  "),
          some (stripScripts (Routes.jToString (some (.num 5)))), []⟩⟩,
        some ⟨stripScripts (jsTrim "  hi<script>a</script>  "),
          some (stripScripts (Routes.jToString (some (.num 5))))⟩) :=
  ⟨(C9_create_project ⟨some (.num 3), none⟩ (fun d => .ok ⟨"p1", d.name, d.description, []⟩)).1
      (Or.inr (Or.inr (Or.inl (fun s h => nomatch h)))),
   (C9_create_project ⟨some (.str "  hi<script>a</script>  "), some (.num 5)⟩
      (fun d => .ok ⟨"p1", d.name, d.description, []⟩)).2
      "  hi<script>a</script>  " _ rfl (by decide) (by decide) rfl⟩

/-! ### C7: path normalization -/

/-- No two consecutive slashes. -/
def NoDbl (l : List Char) : Prop := l.Chain' (fun a b => ¬(a = '/' ∧ b = '/'))

/-- Collapsing preserves the head character. -/
theorem head?_collapseSlashes : ∀ (b : Char) (rest : List Char),
    (VFS.collapseSlashes (b :: rest)).head? = some b := by
  intro b rest
  induction rest generalizing b with
  | nil => rfl
  | cons y r ih =>
    unfold VFS.collapseSlashes
    by_cases hby : b = '/' ∧ y = '/'
    · rw [if_pos (by simp [hby.1, hby.2])]
      rw [ih y, hby.1, hby.2]
    · rw [if_neg (by simpa using hby)]
      rfl

/-- The collapsed list has no double slash. -/
theorem noDbl_collapseSlashes : ∀ l, NoDbl (VFS.collapseSlashes l) := by
  intro l
  match l with
  | [] => exact List.chain'_nil
  | [c] => exact List.chain'_singleton c
  | a :: b :: rest =>
    have ih := noDbl_collapseSlashes (b :: rest)
    unfold VFS.collapseSlashes
    by_cases hab : a = '/' ∧ b = '/'
    · rw [if_pos (by simp [hab.1, hab.2])]
      exact ih
    · rw [if_neg (by simpa using hab)]
      refine List.chain'_cons'.mpr ⟨?_, ih⟩
      intro y hy
      rw [head?_collapseSlashes b rest] at hy
      cases hy
      simpa using hab

/-- A list with no double slash is fixed by collapsing. -/
theorem collapseSlashes_eq_self : ∀ l, NoDbl l → VFS.collapseSlashes l = l := by
  intro l
  match l with
  | [] => intro _; rfl
  | [c] => intro _; rfl
  | a :: b :: rest =>
    intro h
    have hR := (List.chain'_cons.mp h).1
    have ih := collapseSlashes_eq_self (b :: rest) (List.chain'_cons.mp h).2
    unfold VFS.collapseSlashes
    rw [if_neg (by simpa using hR)]
    rw [ih]

/-- `dropTrailingSlash` drops the last character exactly when it is a
slash. -/
theorem dropTrailingSlash_eq : ∀ l, VFS.dropTrailingSlash l =
    if l.getLast? = some '/' then l.dropLast else l := by
  intro l
  match l with
  | [] => rfl
  | [c] =>
    unfold VFS.dropTrailingSlash
    by_cases hc : c = '/'
    · subst hc; simp
    · simp [hc]
  | a :: b :: rest =>
    have ih := dropTrailingSlash_eq (b :: rest)
    unfold VFS.dropTrailingSlash
    rw [ih]
    by_cases hl : (b :: rest).getLast? = some '/'
    · rw [if_pos hl, if_pos (by simpa using hl)]
      simp
    · rw [if_neg hl, if_neg (by simpa using hl)]

/-- After dropping the trailing slash of a no-double-slash list, the result
does not end in a slash. -/
theorem getLast?_dropTrailingSlash (l : List Char) (h : NoDbl l) :
    (VFS.dropTrailingSlash l).getLast? ≠ some '/' := by
  rw [dropTrailingSlash_eq]
  by_cases hl : l.getLast? = some '/'
  · rw [if_pos hl]
    intro hcon
    rcases List.eq_nil_or_concat l with rfl | ⟨l1, y, rfl⟩
    · cases hl
    · simp only [List.concat_eq_append] at h hl hcon
      rw [List.getLast?_concat] at hl
      cases hl
      rw [List.dropLast_concat] at hcon
      rcases List.eq_nil_or_concat l1 with rfl | ⟨l2, x, rfl⟩
      · cases hcon
      · simp only [List.concat_eq_append] at h hcon
        rw [List.getLast?_concat] at hcon
        cases hcon
        have h2 := (List.chain'_append.mp h).2.2
        simp at h2
  · rw [if_neg hl]
    exact hl

/-- `NoDbl` survives dropping the trailing slash. -/
theorem noDbl_dropTrailingSlash (l : List Char) (h : NoDbl l) :
    NoDbl (VFS.dropTrailingSlash l) := by
  rw [dropTrailingSlash_eq]
  by_cases hl : l.getLast? = some '/'
  · rw [if_pos hl]
    exact h.prefix (List.dropLast_eq_take l ▸ List.take_prefix _ l)
  · rw [if_neg hl]; exact h

/-- A list not ending in a slash is fixed by `dropTrailingSlash`. -/
theorem dropTrailingSlash_eq_self (l : List Char) (h : l.getLast? ≠ some '/') :
    VFS.dropTrailingSlash l = l := by
  rw [dropTrailingSlash_eq, if_neg h]

/-- C7: `normalizePath` leaves no run of consecutive slashes (its output has
no double slash), removes the trailing slash (a non-root result never ends
in `'/'`), maps an empty collapsed-and-stripped result to `'/'`, and is
idempotent. -/
theorem C7_normalizePath (p : String) :
    NoDbl (VFS.normalizePath p).data ∧
    (VFS.normalizePath p = "/" ∨ (VFS.normalizePath p).data.getLast? ≠ some '/') ∧
    (VFS.dropTrailingSlash (VFS.collapseSlashes p.data) = [] → VFS.normalizePath p = "/") ∧
    VFS.normalizePath (VFS.normalizePath p) = VFS.normalizePath p := by
  have hnd : NoDbl (VFS.dropTrailingSlash (VFS.collapseSlashes p.data)) :=
    noDbl_dropTrailingSlash _ (noDbl_collapseSlashes p.data)
  have hlast : (VFS.dropTrailingSlash (VFS.collapseSlashes p.data)).getLast? ≠ some '/' :=
    getLast?_dropTrailingSlash _ (noDbl_collapseSlashes p.data)
  by_cases hr : VFS.dropTrailingSlash (VFS.collapseSlashes p.data) = []
  · have hp : VFS.normalizePath p = "/" := by
      unfold VFS.normalizePath
      rw [hr]
      rfl
    refine ⟨?_, Or.inl hp, fun _ => hp, ?_⟩
    · rw [hp]
      exact List.chain'_singleton '/'
    · rw [hp]
      decide
  · have hp : VFS.normalizePath p = ⟨VFS.dropTrailingSlash (VFS.collapseSlashes p.data)⟩ := by
      unfold VFS.normalizePath
      rw [if_neg (by simpa [List.isEmpty_iff] using hr)]
    refine ⟨?_, ?_, fun hcon => absurd hcon hr, ?_⟩
    · rw [hp]; exact hnd
    · right; rw [hp]; exact hlast
    · rw [hp]
      unfold VFS.normalizePath
      have hdata : (String.mk (VFS.dropTrailingSlash (VFS.collapseSlashes p.data))).data =
          VFS.dropTrailingSlash (VFS.collapseSlashes p.data) := rfl
      rw [hdata, collapseSlashes_eq_self _ hnd, dropTrailingSlash_eq_self _ hlast,
        if_neg (by simpa [List.isEmpty_iff] using hr)]

/-- Closed instance of `C7_normalizePath` at `"a//b//"`. -/
theorem C7_normalizePath_witness :
    NoDbl (VFS.normalizePath "a//b//").data ∧
    (VFS.normalizePath "a//b//" = "/" ∨
      (VFS.normalizePath "a//b//").data.getLast? ≠ some '/') ∧
    (VFS.dropTrailingSlash (VFS.collapseSlashes "a//b//".data) = [] →
      VFS.normalizePath "a//b//" = "/") ∧
    VFS.normalizePath (VFS.normalizePath "a//b//") = VFS.normalizePath "a//b//" :=
  C7_normalizePath "a//b//"


/-! ### C10: the operation history is bounded -/

/-- `recordOperationList` never returns more than 1000 operations, whatever
it is given. -/
theorem recordOperationList_length (ops : List VFS.FSOperation) (op : VFS.FSOperation) :
    (VFS.recordOperationList ops op).length ≤ VFS.maxOperationHistory := by
  unfold VFS.recordOperationList
  by_cases hgt : (ops ++ [op]).length > VFS.maxOperationHistory
  · rw [if_pos hgt]
    simp only [List.length_drop]
    omega
  · rw [if_neg hgt]
    omega

/-- The operations list either obeys the bound or was not touched. -/
def OpsLe (s s' : VFS.FileSystemState) : Prop :=
  s'.operations.length ≤ VFS.maxOperationHistory ∨ s'.operations = s.operations

theorem opsLe_refl {s : VFS.FileSystemState} : OpsLe s s := Or.inr rfl

theorem opsLe_trans {s1 s2 s3 : VFS.FileSystemState}
    (h1 : OpsLe s1 s2) (h2 : OpsLe s2 s3) : OpsLe s1 s3 := by
  rcases h2 with h2 | h2
  · exact Or.inl h2
  · rcases h1 with h1 | h1
    · exact Or.inl (h2 ▸ h1)
    · exact Or.inr (h2.trans h1)

theorem opsLe_recordOperation (s : VFS.FileSystemState) (op : VFS.FSOperation) :
    OpsLe s (VFS.recordOperation s op) :=
  Or.inl (recordOperationList_length s.operations op)

theorem operations_pushChild (s : VFS.FileSystemState) (p c : Nat) :
    (VFS.pushChild s p c).operations = s.operations := by
  unfold VFS.pushChild
  split <;> rfl

theorem operations_removeChild (s : VFS.FileSystemState) (p c : Nat) :
    (VFS.removeChild s p c).operations = s.operations := by
  unfold VFS.removeChild
  split <;> rfl

theorem operations_unlinkFromParent (s : VFS.FileSystemState) (p : Option Nat) (c : Nat) :
    (VFS.unlinkFromParent s p c).operations = s.operations := by
  unfold VFS.unlinkFromParent
  cases p
  · rfl
  · exact operations_removeChild _ _ _

theorem operations_setFileMoved (s : VFS.FileSystemState) (i : Nat) (p : String) (pid : Nat) :
    (VFS.setFileMoved s i p pid).operations = s.operations := by
  unfold VFS.setFileMoved
  split <;> rfl

theorem operations_setDirMoved (s : VFS.FileSystemState) (i : Nat) (p : String) (pid : Nat) :
    (VFS.setDirMoved s i p pid).operations = s.operations := by
  unfold VFS.setDirMoved
  split <;> rfl

/-- Both members of the directory-creation pair only touch the operations
list through `recordOperation`. -/
theorem opsLe_dirPair : ∀ fuel : Nat,
    (∀ s path, OpsLe s (VFS.ensureDirectoryExists fuel s path).2) ∧
    (∀ s path, OpsLe s (VFS.createDirectoryAux fuel s path).2) := by
  intro fuel
  induction fuel with
  | zero => exact ⟨fun s path => opsLe_refl, fun s path => opsLe_refl⟩
  | succ fuel ih =>
    constructor
    · intro s path
      simp only [VFS.ensureDirectoryExists]
      split
      · exact opsLe_refl
      · split
        · split
          · next heq =>
            have h1 := ih.1 s (VFS.parsePath (VFS.normalizePath path)).1
            rw [heq] at h1
            exact h1
          · next s1 heq =>
            have h1 := ih.1 s (VFS.parsePath (VFS.normalizePath path)).1
            rw [heq] at h1
            exact opsLe_trans h1 (ih.2 _ _)
        · exact ih.2 _ _
    · intro s path
      simp only [VFS.createDirectoryAux]
      split
      · exact opsLe_refl
      · split
        · next heq =>
          have h1 := ih.1 s (VFS.parsePath (VFS.normalizePath path)).1
          rw [heq] at h1
          exact h1
        · next parentId s1 heq =>
          have h1 := ih.1 s (VFS.parsePath (VFS.normalizePath path)).1
          rw [heq] at h1
          refine opsLe_trans h1 (opsLe_trans (Or.inr ?_) (opsLe_recordOperation _ _))
          exact operations_pushChild _ _ _

theorem opsLe_deleteFile (s : VFS.FileSystemState) (path : String) :
    OpsLe s (VFS.deleteFile s path).2 := by
  simp only [VFS.deleteFile]
  split
  · exact opsLe_refl
  · split
    · refine opsLe_trans (Or.inr ?_) (opsLe_recordOperation _ _)
      exact operations_unlinkFromParent _ _ _
    · exact opsLe_refl

/-- The recursive delete likewise touches the operations list only through
`recordOperation`. -/
theorem opsLe_deletePair : ∀ fuel : Nat,
    (∀ s path recursive, OpsLe s (VFS.deleteDirectoryAux fuel s path recursive).2) ∧
    (∀ l s, OpsLe s (VFS.deleteChildren fuel s l).2) := by
  intro fuel
  induction fuel with
  | zero =>
    constructor
    · intro s path recursive
      simp only [VFS.deleteDirectoryAux]
      exact opsLe_refl
    · intro l
      induction l with
      | nil =>
        intro s
        simp only [VFS.deleteChildren]
        exact opsLe_refl
      | cons c rest ihl =>
        intro s
        simp only [VFS.deleteChildren]
        split
        · split
          · next e s1 heq =>
            simp only [VFS.deleteDirectoryAux] at heq
            cases heq
            exact opsLe_refl
          · next s1 heq =>
            simp only [VFS.deleteDirectoryAux] at heq
            cases heq
        · next cf hcf =>
          split
          · next e s1 heq =>
            have h1 := opsLe_deleteFile s cf.path
            rw [heq] at h1
            exact h1
          · next s1 heq =>
            have h1 := opsLe_deleteFile s cf.path
            rw [heq] at h1
            exact opsLe_trans h1 (ihl s1)
        · exact ihl s
  | succ fuel ih =>
    have hD : ∀ s path recursive, OpsLe s (VFS.deleteDirectoryAux (fuel + 1) s path recursive).2 := by
      intro s path recursive
      simp only [VFS.deleteDirectoryAux]
      split
      · exact opsLe_refl
      · split
        · exact opsLe_refl
        · split
          · next d hd =>
            split
            · exact opsLe_refl
            · split
              · next e s1 heq =>
                cases recursive with
                | true =>
                  simp only [if_true] at heq
                  have h1 := ih.2 d.children s
                  rw [heq] at h1
                  exact h1
                | false =>
                  simp only [if_false, Bool.false_eq_true] at heq
                  cases heq
              · next s1 heq =>
                have h1 : OpsLe s s1 := by
                  cases recursive with
                  | true =>
                    simp only [if_true] at heq
                    have h2 := ih.2 d.children s
                    rw [heq] at h2
                    exact h2
                  | false =>
                    simp only [if_false, Bool.false_eq_true] at heq
                    cases heq
                    exact opsLe_refl
                refine opsLe_trans h1 (opsLe_trans (Or.inr ?_) (opsLe_recordOperation _ _))
                exact operations_unlinkFromParent _ _ _
          · exact opsLe_refl
    refine ⟨hD, ?_⟩
    intro l
    induction l with
    | nil =>
      intro s
      simp only [VFS.deleteChildren]
      exact opsLe_refl
    | cons c rest ihl =>
      intro s
      simp only [VFS.deleteChildren]
      split
      · next cd hcd =>
        split
        · next e s1 heq =>
          have h1 := hD s cd.path true
          rw [heq] at h1
          exact h1
        · next s1 heq =>
          have h1 := hD s cd.path true
          rw [heq] at h1
          exact opsLe_trans h1 (ihl s1)
      · next cf hcf =>
        split
        · next e s1 heq =>
          have h1 := opsLe_deleteFile s cf.path
          rw [heq] at h1
          exact h1
        · next s1 heq =>
          have h1 := opsLe_deleteFile s cf.path
          rw [heq] at h1
          exact opsLe_trans h1 (ihl s1)
      · exact ihl s

/-- `updateChildrenPaths` never records operations. -/
theorem operations_updateChildrenPair : ∀ fuel : Nat,
    (∀ s dId a b, (VFS.updateChildrenPaths fuel s dId a b).2.operations = s.operations) ∧
    (∀ l s a b, (VFS.updateChildrenLoop fuel s l a b).2.operations = s.operations) := by
  intro fuel
  induction fuel with
  | zero =>
    have hL : ∀ (l : List Nat) s a b,
        (VFS.updateChildrenLoop 0 s l a b).2.operations = s.operations := by
      intro l
      induction l with
      | nil =>
        intro s a b
        simp only [VFS.updateChildrenLoop]
      | cons c rest ihl =>
        intro s a b
        simp only [VFS.updateChildrenLoop]
        split
        · exact ihl _ a b
        · next d hd =>
          split
          · next e s2 heq =>
            simp only [VFS.updateChildrenPaths] at heq
            cases heq
            rfl
          · next s2 heq =>
            simp only [VFS.updateChildrenPaths] at heq
            cases heq
        · exact ihl _ a b
    exact ⟨fun s dId a b => by simp only [VFS.updateChildrenPaths], hL⟩
  | succ fuel ih =>
    have hP : ∀ s dId a b,
        (VFS.updateChildrenPaths (fuel + 1) s dId a b).2.operations = s.operations := by
      intro s dId a b
      simp only [VFS.updateChildrenPaths]
      split
      · exact ih.2 _ _ _ _
      · rfl
    refine ⟨hP, ?_⟩
    intro l
    induction l with
    | nil =>
      intro s a b
      simp only [VFS.updateChildrenLoop]
    | cons c rest ihl =>
      intro s a b
      simp only [VFS.updateChildrenLoop]
      split
      · exact ihl _ a b
      · next d hd =>
        split
        · next e s2 heq =>
          have h1 := hP { s with heap := VFS.heapSet s.heap c (VFS.Node.dir { d with path := b ++ ⟨VFS.sliceFromU16 d.path.data (utf16Length a)⟩ }) } c a b
          rw [heq] at h1
          exact h1
        · next s2 heq =>
          have h1 := hP { s with heap := VFS.heapSet s.heap c (VFS.Node.dir { d with path := b ++ ⟨VFS.sliceFromU16 d.path.data (utf16Length a)⟩ }) } c a b
          rw [heq] at h1
          rw [ihl s2 a b, h1]
      · exact ihl _ a b

theorem opsLe_moveFileAux (s : VFS.FileSystemState) (fId : Nat) (t : String) :
    OpsLe s (VFS.moveFileAux s fId t).2 := by
  simp only [VFS.moveFileAux]
  split
  · next e s1 heq =>
    have h1 := (opsLe_dirPair (VFS.ensureFuel (VFS.parsePath (VFS.normalizePath t)).1)).1 s
      (VFS.parsePath (VFS.normalizePath t)).1
    rw [heq] at h1
    exact h1
  · next newParentId s1 heq =>
    have h1 := (opsLe_dirPair (VFS.ensureFuel (VFS.parsePath (VFS.normalizePath t)).1)).1 s
      (VFS.parsePath (VFS.normalizePath t)).1
    rw [heq] at h1
    refine opsLe_trans h1 (opsLe_trans (Or.inr ?_) (opsLe_recordOperation _ _))
    rw [operations_pushChild, operations_setFileMoved, operations_unlinkFromParent]

theorem opsLe_moveDirAux (fuel : Nat) (s : VFS.FileSystemState) (dId : Nat) (t : String) :
    OpsLe s (VFS.moveDirAux fuel s dId t).2 := by
  simp only [VFS.moveDirAux]
  split
  · next e s1 heq =>
    have h1 := (opsLe_dirPair (VFS.ensureFuel (VFS.parsePath (VFS.normalizePath t)).1)).1 s
      (VFS.parsePath (VFS.normalizePath t)).1
    rw [heq] at h1
    exact h1
  · next newParentId s1 heq =>
    have h1 := (opsLe_dirPair (VFS.ensureFuel (VFS.parsePath (VFS.normalizePath t)).1)).1 s
      (VFS.parsePath (VFS.normalizePath t)).1
    rw [heq] at h1
    split
    · next e2 s4 heq2 =>
      have h2 := (operations_updateChildrenPair fuel).1
        (VFS.setDirMoved (VFS.unlinkFromParent s1 (VFS.dirParentId s1 dId) dId) dId
          (VFS.normalizePath t) newParentId)
        dId
        (VFS.dirPathOf (VFS.unlinkFromParent s1 (VFS.dirParentId s1 dId) dId) dId)
        (VFS.normalizePath t)
      rw [heq2] at h2
      refine opsLe_trans h1 (Or.inr ?_)
      rw [h2, operations_setDirMoved, operations_unlinkFromParent]
    · next s4 heq2 =>
      have h2 := (operations_updateChildrenPair fuel).1
        (VFS.setDirMoved (VFS.unlinkFromParent s1 (VFS.dirParentId s1 dId) dId) dId
          (VFS.normalizePath t) newParentId)
        dId
        (VFS.dirPathOf (VFS.unlinkFromParent s1 (VFS.dirParentId s1 dId) dId) dId)
        (VFS.normalizePath t)
      rw [heq2] at h2
      refine opsLe_trans h1 (opsLe_trans (Or.inr ?_) (opsLe_recordOperation _ _))
      rw [operations_pushChild, h2, operations_setDirMoved, operations_unlinkFromParent]

theorem opsLe_createFile (s : VFS.FileSystemState) (p c : String) :
    OpsLe s (VFS.createFile s p c).2 := by
  simp only [VFS.createFile]
  split
  · exact opsLe_refl
  · split
    · next e s1 heq =>
      have h1 := (opsLe_dirPair (VFS.ensureFuel (VFS.parsePath (VFS.normalizePath p)).1)).1 s
        (VFS.parsePath (VFS.normalizePath p)).1
      rw [heq] at h1
      exact h1
    · next parentId s1 heq =>
      have h1 := (opsLe_dirPair (VFS.ensureFuel (VFS.parsePath (VFS.normalizePath p)).1)).1 s
        (VFS.parsePath (VFS.normalizePath p)).1
      rw [heq] at h1
      refine opsLe_trans h1 (opsLe_trans (Or.inr ?_) (opsLe_recordOperation _ _))
      exact operations_pushChild _ _ _

theorem opsLe_updateFile (s : VFS.FileSystemState) (p c : String) :
    OpsLe s (VFS.updateFile s p c).2 := by
  simp only [VFS.updateFile]
  split
  · exact opsLe_refl
  · split
    · exact opsLe_trans (Or.inr rfl) (opsLe_recordOperation _ _)
    · exact opsLe_refl

theorem opsLe_copyFile (s : VFS.FileSystemState) (a b : String) :
    OpsLe s (VFS.copyFile s a b).2 := by
  simp only [VFS.copyFile]
  split
  · exact opsLe_refl
  · split
    · next f hf => exact opsLe_createFile s b f.content
    · exact opsLe_refl

theorem opsLe_move (s : VFS.FileSystemState) (a b : String) :
    OpsLe s (VFS.move s a b).2 := by
  simp only [VFS.move]
  split
  · next fId heq => exact opsLe_moveFileAux s fId _
  · split
    · next dId heq => exact opsLe_moveDirAux _ s dId _
    · exact opsLe_refl

theorem opsLe_applyOp (s : VFS.FileSystemState) (op : VFS.Op) : OpsLe s (VFS.applyOp s op) := by
  cases op with
  | createFile p c => exact opsLe_createFile s p c
  | createDirectory p =>
    simp only [VFS.applyOp, VFS.createDirectory]
    exact (opsLe_dirPair _).2 s p
  | readFile p => exact opsLe_refl
  | updateFile p c => exact opsLe_updateFile s p c
  | deleteFile p => exact opsLe_deleteFile s p
  | deleteDirectory p r =>
    simp only [VFS.applyOp, VFS.deleteDirectory]
    exact (opsLe_deletePair _).1 s p r
  | move a b => exact opsLe_move s a b
  | copyFile a b => exact opsLe_copyFile s a b

/-- C10: the operation history is bounded.  In every reachable state the
operations list has at most `maxOperationHistory` (1000) entries, and when
pushing one more operation would exceed the bound, `recordOperation` keeps
exactly the most recent 1000 in order (`slice(-1000)`). -/
theorem C10_operation_history_bounded :
    (∀ s, VFS.Reachable s → s.operations.length ≤ VFS.maxOperationHistory) ∧
    (∀ ops op, ops.length + 1 > VFS.maxOperationHistory →
      VFS.recordOperationList ops op =
        (ops ++ [op]).drop ((ops ++ [op]).length - VFS.maxOperationHistory) ∧
      (VFS.recordOperationList ops op).length = VFS.maxOperationHistory) := by
  constructor
  · intro s h
    induction h with
    | init => simp [VFS.initialState, VFS.maxOperationHistory]
    | step op hr ih =>
      rcases opsLe_applyOp _ op with h1 | h1
      · exact h1
      · rw [h1]; exact ih
  · intro ops op hgt
    have hlen : (ops ++ [op]).length = ops.length + 1 := by simp
    constructor
    · unfold VFS.recordOperationList
      rw [if_pos (by omega)]
    · unfold VFS.recordOperationList
      rw [if_pos (by omega)]
      simp only [List.length_drop]
      unfold VFS.maxOperationHistory at hgt ⊢
      omega

/-- Closed instance of `C10_operation_history_bounded`: the fresh state obeys
the bound, and recording into a full 1000-entry history keeps the most recent
1000 entries. -/
theorem C10_operation_history_bounded_witness :
    VFS.initialState.operations.length ≤ VFS.maxOperationHistory ∧
    (VFS.recordOperationList (List.replicate 1000 (⟨.createFile, "/a", some "x", none⟩ : VFS.FSOperation))
        (⟨.createFile, "/b", some "y", none⟩ : VFS.FSOperation) =
      (List.replicate 1000 (⟨.createFile, "/a", some "x", none⟩ : VFS.FSOperation) ++
        [(⟨.createFile, "/b", some "y", none⟩ : VFS.FSOperation)]).drop
        ((List.replicate 1000 (⟨.createFile, "/a", some "x", none⟩ : VFS.FSOperation) ++
          [(⟨.createFile, "/b", some "y", none⟩ : VFS.FSOperation)]).length - VFS.maxOperationHistory) ∧
      (VFS.recordOperationList (List.replicate 1000 (⟨.createFile, "/a", some "x", none⟩ : VFS.FSOperation))
        (⟨.createFile, "/b", some "y", none⟩ : VFS.FSOperation)).length = VFS.maxOperationHistory) :=
  ⟨C10_operation_history_bounded.1 VFS.initialState VFS.Reachable.init,
   C10_operation_history_bounded.2 (List.replicate 1000 (⟨.createFile, "/a", some "x", none⟩ : VFS.FSOperation))
     (⟨.createFile, "/b", some "y", none⟩ : VFS.FSOperation)
     (by simp only [List.length_replicate, VFS.maxOperationHistory]; omega)⟩

/-! ### Well-formedness of file-system states

`Inv` collects the structural facts every state reachable without moving the
root enjoys: the root cell is a directory at path `'/'` registered in the
directories map, map keys point at cells of the right kind, ids at or above
the fresh counter are unallocated, and no `children` array references the
root. -/

structure Inv (s : VFS.FileSystemState) : Prop where
  root_cell : ∃ r : VFS.VDir,
    s.heap s.rootId = some (.dir r) ∧ r.path = "/" ∧ r.id = s.rootId
  root_mem : s.rootId ∈ s.directories
  files_kind : ∀ i ∈ s.files, ∃ f : VFS.VFile, s.heap i = some (.file f)
  dirs_kind : ∀ i ∈ s.directories, ∃ d : VFS.VDir, s.heap i = some (.dir d)
  fresh : ∀ i, s.nextId ≤ i → s.heap i = none
  not_child : ∀ i n, s.heap i = some n → s.rootId ∉ n.kids

/-- An allocated id is below the fresh counter. -/
theorem Inv.lt_nextId {s : VFS.FileSystemState} (h : Inv s) {i : Nat} {n : VFS.Node}
    (hc : s.heap i = some n) : i < s.nextId := by
  by_contra hge
  rw [h.fresh i (by omega)] at hc
  cases hc

/-- The root id is below the fresh counter. -/
theorem Inv.root_lt {s : VFS.FileSystemState} (h : Inv s) : s.rootId < s.nextId := by
  obtain ⟨r, hr, -, -⟩ := h.root_cell
  exact h.lt_nextId hr

/-- A file cell never sits at the root id. -/
theorem Inv.file_ne_root {s : VFS.FileSystemState} (h : Inv s) {i : Nat} {f : VFS.VFile}
    (hc : s.heap i = some (.file f)) : i ≠ s.rootId := by
  intro he
  obtain ⟨r, hr, -, -⟩ := h.root_cell
  rw [he, hr] at hc
  cases hc

theorem heapSet_self (h : Nat → Option VFS.Node) (i : Nat) (n : VFS.Node) :
    VFS.heapSet h i n i = some n := by
  simp [VFS.heapSet]

theorem heapSet_other (h : Nat → Option VFS.Node) (i : Nat) (n : VFS.Node) (j : Nat)
    (hj : j ≠ i) : VFS.heapSet h i n j = h j := by
  simp [VFS.heapSet, hj]

/-- Writing a directory cell in place, keeping its `path`, `id` and keeping
`children` free of the root, preserves `Inv`. -/
theorem inv_setDirCell {s : VFS.FileSystemState} (h : Inv s) {p : Nat} {d d' : VFS.VDir}
    (hd : s.heap p = some (.dir d)) (hpath : p = s.rootId → d'.path = d.path ∧ d'.id = d.id)
    (hkids : s.rootId ∉ d'.children) :
    Inv { s with heap := VFS.heapSet s.heap p (.dir d') } := by
  constructor
  all_goals dsimp only
  · obtain ⟨r, hr, hrp, hri⟩ := h.root_cell
    by_cases hpr : p = s.rootId
    · subst hpr
      rw [hd] at hr
      cases hr
      exact ⟨d', by simp [heapSet_self], (hpath rfl).1.trans hrp, (hpath rfl).2.trans hri⟩
    · exact ⟨r, by rw [heapSet_other _ _ _ _ (Ne.symm hpr)]; exact hr, hrp, hri⟩
  · exact h.root_mem
  · intro i hi
    obtain ⟨f, hf⟩ := h.files_kind i hi
    have hip : i ≠ p := by
      intro he
      rw [he, hd] at hf
      cases hf
    exact ⟨f, by rw [heapSet_other _ _ _ _ hip]; exact hf⟩
  · intro i hi
    by_cases hip : i = p
    · subst hip
      exact ⟨d', heapSet_self _ _ _⟩
    · obtain ⟨x, hx⟩ := h.dirs_kind i hi
      exact ⟨x, by rw [heapSet_other _ _ _ _ hip]; exact hx⟩
  · intro i hge
    have hip : i ≠ p := by
      intro he
      have hn := h.fresh i hge
      rw [he, hd] at hn
      cases hn
    rw [heapSet_other _ _ _ _ hip]
    exact h.fresh i hge
  · intro i n hn
    by_cases hip : i = p
    · subst hip
      rw [heapSet_self] at hn
      cases hn
      simpa [VFS.Node.kids] using hkids
    · rw [heapSet_other _ _ _ _ hip] at hn
      exact h.not_child i n hn

/-- Writing a file cell in place preserves `Inv`. -/
theorem inv_setFileCell {s : VFS.FileSystemState} (h : Inv s) {p : Nat} {f f' : VFS.VFile}
    (hf : s.heap p = some (.file f)) :
    Inv { s with heap := VFS.heapSet s.heap p (.file f') } := by
  have hpr : p ≠ s.rootId := h.file_ne_root hf
  constructor
  all_goals dsimp only
  · obtain ⟨r, hr, hrp, hri⟩ := h.root_cell
    exact ⟨r, by rw [heapSet_other _ _ _ _ (Ne.symm hpr)]; exact hr, hrp, hri⟩
  · exact h.root_mem
  · intro i hi
    by_cases hip : i = p
    · subst hip
      exact ⟨f', heapSet_self _ _ _⟩
    · obtain ⟨x, hx⟩ := h.files_kind i hi
      exact ⟨x, by rw [heapSet_other _ _ _ _ hip]; exact hx⟩
  · intro i hi
    obtain ⟨x, hx⟩ := h.dirs_kind i hi
    have hip : i ≠ p := by
      intro he
      rw [he, hf] at hx
      cases hx
    exact ⟨x, by rw [heapSet_other _ _ _ _ hip]; exact hx⟩
  · intro i hge
    have hip : i ≠ p := by
      intro he
      have hn := h.fresh i hge
      rw [he, hf] at hn
      cases hn
    rw [heapSet_other _ _ _ _ hip]
    exact h.fresh i hge
  · intro i n hn
    by_cases hip : i = p
    · subst hip
      rw [heapSet_self] at hn
      cases hn
      simp [VFS.Node.kids]
    · rw [heapSet_other _ _ _ _ hip] at hn
      exact h.not_child i n hn

theorem inv_pushChild {s : VFS.FileSystemState} (h : Inv s) {p c : Nat}
    (hc : c ≠ s.rootId) : Inv (VFS.pushChild s p c) := by
  unfold VFS.pushChild
  split
  · next d hd =>
    refine inv_setDirCell h hd (fun _ => ⟨rfl, rfl⟩) ?_
    intro hmem
    rcases List.mem_append.mp hmem with hmem | hmem
    · exact h.not_child p _ hd (by simpa [VFS.Node.kids] using hmem)
    · exact (Ne.symm hc) (List.mem_singleton.mp hmem)
  · exact h

theorem inv_removeChild {s : VFS.FileSystemState} (h : Inv s) (p c : Nat) :
    Inv (VFS.removeChild s p c) := by
  unfold VFS.removeChild
  split
  · next d hd =>
    refine inv_setDirCell h hd (fun _ => ⟨rfl, rfl⟩) ?_
    intro hmem
    exact h.not_child p _ hd (by simpa [VFS.Node.kids] using List.mem_of_mem_filter hmem)
  · exact h

theorem inv_unlinkFromParent {s : VFS.FileSystemState} (h : Inv s) (par : Option Nat) (c : Nat) :
    Inv (VFS.unlinkFromParent s par c) := by
  unfold VFS.unlinkFromParent
  cases par
  · exact h
  · exact inv_removeChild h _ _

theorem inv_recordOperation {s : VFS.FileSystemState} (h : Inv s) (op : VFS.FSOperation) :
    Inv (VFS.recordOperation s op) :=
  ⟨h.root_cell, h.root_mem, h.files_kind, h.dirs_kind, h.fresh, h.not_child⟩

theorem inv_filterFiles {s : VFS.FileSystemState} (h : Inv s) (p : Nat → Bool) :
    Inv { s with files := s.files.filter p } := by
  refine ⟨h.root_cell, h.root_mem, ?_, h.dirs_kind, h.fresh, h.not_child⟩
  intro i hi
  exact h.files_kind i (List.mem_of_mem_filter hi)

theorem inv_filterDirs {s : VFS.FileSystemState} (h : Inv s) {dId : Nat}
    (hne : dId ≠ s.rootId) :
    Inv { s with directories := s.directories.filter (fun i => i ≠ dId) } := by
  refine ⟨h.root_cell, ?_, h.files_kind, ?_, h.fresh, h.not_child⟩
  · exact List.mem_filter.mpr ⟨h.root_mem, by simpa using Ne.symm hne⟩
  · intro i hi
    exact h.dirs_kind i (List.mem_of_mem_filter hi)

/-! ### Path-length facts used by the directory-creation proofs -/

theorem normalizePath_idem (p : String) :
    VFS.normalizePath (VFS.normalizePath p) = VFS.normalizePath p := by
  have hnd : NoDbl (VFS.dropTrailingSlash (VFS.collapseSlashes p.data)) :=
    noDbl_dropTrailingSlash _ (noDbl_collapseSlashes p.data)
  have hlast : (VFS.dropTrailingSlash (VFS.collapseSlashes p.data)).getLast? ≠ some '/' :=
    getLast?_dropTrailingSlash _ (noDbl_collapseSlashes p.data)
  by_cases hr : VFS.dropTrailingSlash (VFS.collapseSlashes p.data) = []
  · have hp : VFS.normalizePath p = "/" := by
      unfold VFS.normalizePath
      rw [hr]
      rfl
    rw [hp]
    decide
  · have hp : VFS.normalizePath p = ⟨VFS.dropTrailingSlash (VFS.collapseSlashes p.data)⟩ := by
      unfold VFS.normalizePath
      rw [if_neg (by simpa [List.isEmpty_iff] using hr)]
    rw [hp]
    unfold VFS.normalizePath
    have hdata : (String.mk (VFS.dropTrailingSlash (VFS.collapseSlashes p.data))).data =
        VFS.dropTrailingSlash (VFS.collapseSlashes p.data) := rfl
    rw [hdata, collapseSlashes_eq_self _ hnd, dropTrailingSlash_eq_self _ hlast,
      if_neg (by simpa [List.isEmpty_iff] using hr)]

theorem collapseSlashes_length_le : ∀ l : List Char,
    (VFS.collapseSlashes l).length ≤ l.length := by
  intro l
  match l with
  | [] => exact le_refl _
  | [c] => exact le_refl _
  | a :: b :: rest =>
    have ih := collapseSlashes_length_le (b :: rest)
    unfold VFS.collapseSlashes
    split
    · simpa using Nat.le_succ_of_le ih
    · simpa using ih

theorem dropTrailingSlash_length_le : ∀ l : List Char,
    (VFS.dropTrailingSlash l).length ≤ l.length := by
  intro l
  match l with
  | [] => exact le_refl _
  | [c] =>
    unfold VFS.dropTrailingSlash
    split <;> simp
  | a :: b :: rest =>
    have ih := dropTrailingSlash_length_le (b :: rest)
    unfold VFS.dropTrailingSlash
    simpa using ih

theorem normalizePath_length_le (q : String) :
    (VFS.normalizePath q).length ≤ max q.length 1 := by
  simp only [VFS.normalizePath]
  split
  · exact le_max_of_le_right (by decide)
  · have h1 := dropTrailingSlash_length_le (VFS.collapseSlashes q.data)
    have h2 := collapseSlashes_length_le q.data
    have hq : q.length = q.data.length := rfl
    have hmk : (String.mk (VFS.dropTrailingSlash (VFS.collapseSlashes q.data))).length =
        (VFS.dropTrailingSlash (VFS.collapseSlashes q.data)).length := rfl
    omega

theorem normalizePath_length_pos (q : String) : 1 ≤ (VFS.normalizePath q).length := by
  simp only [VFS.normalizePath]
  split
  · decide
  · next hne =>
    have hmk : (String.mk (VFS.dropTrailingSlash (VFS.collapseSlashes q.data))).length =
        (VFS.dropTrailingSlash (VFS.collapseSlashes q.data)).length := rfl
    rw [hmk]
    cases hl : VFS.dropTrailingSlash (VFS.collapseSlashes q.data) with
    | nil => rw [hl] at hne; simp at hne
    | cons x xs => simp

theorem lastSlashIdx_lt_length : ∀ (l : List Char) (k : Nat),
    VFS.lastSlashIdx l = some k → k < l.length := by
  intro l
  induction l with
  | nil => intro k h; simp [VFS.lastSlashIdx] at h
  | cons c cs ih =>
    intro k h
    unfold VFS.lastSlashIdx at h
    cases hcs : VFS.lastSlashIdx cs with
    | some i =>
      simp only [hcs] at h
      cases h
      have := ih i hcs
      simpa using Nat.succ_lt_succ this
    | none =>
      simp only [hcs] at h
      split at h
      · cases h
        simp
      · cases h

theorem parsePath_fst_root (q : String)
    (h : VFS.lastSlashIdx (VFS.normalizePath q).data = some 0) :
    (VFS.parsePath q).1 = "/" := by
  simp only [VFS.parsePath, h]

theorem parsePath_fst_take (q : String) (k : Nat)
    (h : VFS.lastSlashIdx (VFS.normalizePath q).data = some (k + 1)) :
    (VFS.parsePath q).1 = String.mk ((VFS.normalizePath q).data.take (k + 1)) := by
  simp only [VFS.parsePath, h]

theorem parsePath_fst_dropLast (q : String)
    (h : VFS.lastSlashIdx (VFS.normalizePath q).data = none) :
    (VFS.parsePath q).1 = String.mk (VFS.normalizePath q).data.dropLast := by
  simp only [VFS.parsePath, h]

/-- The parent component of `parsePath` normalizes to something no longer
than the normalized input. -/
theorem norm_parse_fst_le (q : String) :
    (VFS.normalizePath (VFS.parsePath q).1).length ≤ (VFS.normalizePath q).length := by
  have hpos := normalizePath_length_pos q
  cases hk : VFS.lastSlashIdx (VFS.normalizePath q).data with
  | some k =>
    cases k with
    | zero =>
      rw [parsePath_fst_root q hk]
      have h1 : (VFS.normalizePath "/").length = 1 := by decide
      omega
    | succ k0 =>
      rw [parsePath_fst_take q k0 hk]
      have hlt := lastSlashIdx_lt_length _ _ hk
      have hle := normalizePath_length_le (String.mk ((VFS.normalizePath q).data.take (k0 + 1)))
      have htk : (String.mk ((VFS.normalizePath q).data.take (k0 + 1))).length =
          ((VFS.normalizePath q).data.take (k0 + 1)).length := rfl
      have hlen : (VFS.normalizePath q).length = (VFS.normalizePath q).data.length := rfl
      rw [htk, List.length_take] at hle
      omega
  | none =>
    rw [parsePath_fst_dropLast q hk]
    have hle := normalizePath_length_le (String.mk (VFS.normalizePath q).data.dropLast)
    have hdl : (String.mk (VFS.normalizePath q).data.dropLast).length =
        (VFS.normalizePath q).data.dropLast.length := rfl
    have hlen : (VFS.normalizePath q).length = (VFS.normalizePath q).data.length := rfl
    rw [hdl, List.length_dropLast] at hle
    omega

/-! ### Evolution of directory state under `ensureDirectoryExists` -/

/-- Some registered directory object sits at path `p`. -/
def dirPathAt (s : VFS.FileSystemState) (p : String) : Prop :=
  ∃ i ∈ s.directories, ∃ d : VFS.VDir, s.heap i = some (.dir d) ∧ d.path = p

theorem getDirId_none_iff (s : VFS.FileSystemState) (q : String) :
    VFS.getDirId s q = none ↔ ¬ dirPathAt s (VFS.normalizePath q) := by
  unfold VFS.getDirId dirPathAt
  rw [List.find?_eq_none]
  constructor
  · rintro h ⟨i, hi, d, hd, hp⟩
    have := h i hi
    rw [hd] at this
    simp [hp] at this
  · intro h i hi
    cases hc : s.heap i with
    | none => simp
    | some n =>
      cases n with
      | file f => simp
      | dir d =>
        simp only [decide_eq_true_eq]
        intro hp
        exact h ⟨i, hi, d, hc, hp⟩

theorem getDirId_some (s : VFS.FileSystemState) (q : String) (i : Nat)
    (h : VFS.getDirId s q = some i) :
    i ∈ s.directories ∧ ∃ d : VFS.VDir, s.heap i = some (.dir d) ∧
      d.path = VFS.normalizePath q := by
  unfold VFS.getDirId at h
  refine ⟨List.mem_of_find?_eq_some h, ?_⟩
  have hp := List.find?_some h
  cases hc : s.heap i with
  | none => rw [hc] at hp; simp at hp
  | some n =>
    cases n with
    | file f => rw [hc] at hp; simp at hp
    | dir d =>
      rw [hc] at hp
      simp only [decide_eq_true_eq] at hp
      exact ⟨d, rfl, hp⟩

/-- When some directory sits at path `'/'` (as the root always does),
`getDirId "/"`-style lookups succeed. -/
theorem getDirId_root_some (s : VFS.FileSystemState) (h : Inv s) (q : String)
    (hq : VFS.normalizePath q = "/") : ∃ i, VFS.getDirId s q = some i := by
  cases hid : VFS.getDirId s q with
  | some i => exact ⟨i, rfl⟩
  | none =>
    exfalso
    obtain ⟨r, hr, hrp, -⟩ := h.root_cell
    exact (getDirId_none_iff s q).mp hid (hq ▸ ⟨s.rootId, h.root_mem, r, hr, hrp⟩)

/-- How one `ensureDirectoryExists`/`createDirectory` call may change the
state: well-formedness is kept, the root id, the files map and every file
cell are untouched, the fresh counter only grows, and any directory path
present afterwards was present before or is at most `bound` long. -/
def DirEvolve (bound : Nat) (s s' : VFS.FileSystemState) : Prop :=
  Inv s' ∧ s'.rootId = s.rootId ∧ s'.files = s.files ∧
  (∀ i f, s.heap i = some (.file f) → s'.heap i = some (.file f)) ∧
  s.nextId ≤ s'.nextId ∧
  ∀ p, dirPathAt s' p → dirPathAt s p ∨ p.length ≤ bound

theorem DirEvolve.inv {b : Nat} {s s' : VFS.FileSystemState} (h : DirEvolve b s s') :
    Inv s' := h.1

theorem DirEvolve.refl {s : VFS.FileSystemState} (h : Inv s) (b : Nat) : DirEvolve b s s :=
  ⟨h, rfl, rfl, fun _ _ hf => hf, le_refl _, fun _ hp => Or.inl hp⟩

theorem DirEvolve.trans {b : Nat} {s s1 s2 : VFS.FileSystemState}
    (h1 : DirEvolve b s s1) (h2 : DirEvolve b s1 s2) : DirEvolve b s s2 := by
  obtain ⟨i1, r1, f1, c1, n1, p1⟩ := h1
  obtain ⟨i2, r2, f2, c2, n2, p2⟩ := h2
  refine ⟨i2, r2.trans r1, f2.trans f1, fun i f hf => c2 i f (c1 i f hf), n1.trans n2, ?_⟩
  intro p hp
  rcases p2 p hp with hp1 | hb
  · exact p1 p hp1
  · exact Or.inr hb

theorem DirEvolve.mono {b b' : Nat} {s s' : VFS.FileSystemState}
    (h : DirEvolve b s s') (hb : b ≤ b') : DirEvolve b' s s' := by
  obtain ⟨i1, r1, f1, c1, n1, p1⟩ := h
  refine ⟨i1, r1, f1, c1, n1, ?_⟩
  intro p hp
  rcases p1 p hp with hp1 | hble
  · exact Or.inl hp1
  · exact Or.inr (hble.trans hb)

theorem dirEvolve_pushChild {s : VFS.FileSystemState} (h : Inv s) {p c : Nat}
    (hc : c ≠ s.rootId) (b : Nat) : DirEvolve b s (VFS.pushChild s p c) := by
  refine ⟨inv_pushChild h hc, ?_, ?_, ?_, ?_, ?_⟩
  · unfold VFS.pushChild; split <;> rfl
  · unfold VFS.pushChild; split <;> rfl
  · intro i f hf
    unfold VFS.pushChild
    split
    · next d hd =>
      have hip : i ≠ p := by
        intro he
        rw [he, hd] at hf
        cases hf
      dsimp only
      rw [heapSet_other _ _ _ _ hip]
      exact hf
    · exact hf
  · unfold VFS.pushChild; split <;> simp
  · intro q hq
    left
    unfold VFS.pushChild at hq
    obtain ⟨i, hi, d', hd', hp'⟩ := hq
    revert hi hd'
    split
    · next d hd =>
      intro hi hd'
      dsimp only at hi hd' ⊢
      by_cases hip : i = p
      · subst hip
        rw [heapSet_self] at hd'
        cases hd'
        exact ⟨i, hi, d, hd, hp'⟩
      · rw [heapSet_other _ _ _ _ hip] at hd'
        exact ⟨i, hi, d', hd', hp'⟩
    · intro hi hd'
      exact ⟨i, hi, d', hd', hp'⟩

theorem dirEvolve_removeChild {s : VFS.FileSystemState} (h : Inv s) (p c : Nat) (b : Nat) :
    DirEvolve b s (VFS.removeChild s p c) := by
  refine ⟨inv_removeChild h p c, ?_, ?_, ?_, ?_, ?_⟩
  · unfold VFS.removeChild; split <;> rfl
  · unfold VFS.removeChild; split <;> rfl
  · intro i f hf
    unfold VFS.removeChild
    split
    · next d hd =>
      have hip : i ≠ p := by
        intro he
        rw [he, hd] at hf
        cases hf
      dsimp only
      rw [heapSet_other _ _ _ _ hip]
      exact hf
    · exact hf
  · unfold VFS.removeChild; split <;> simp
  · intro q hq
    left
    unfold VFS.removeChild at hq
    obtain ⟨i, hi, d', hd', hp'⟩ := hq
    revert hi hd'
    split
    · next d hd =>
      intro hi hd'
      dsimp only at hi hd' ⊢
      by_cases hip : i = p
      · subst hip
        rw [heapSet_self] at hd'
        cases hd'
        exact ⟨i, hi, d, hd, hp'⟩
      · rw [heapSet_other _ _ _ _ hip] at hd'
        exact ⟨i, hi, d', hd', hp'⟩
    · intro hi hd'
      exact ⟨i, hi, d', hd', hp'⟩

theorem dirEvolve_recordOperation {s : VFS.FileSystemState} (h : Inv s)
    (op : VFS.FSOperation) (b : Nat) : DirEvolve b s (VFS.recordOperation s op) :=
  ⟨inv_recordOperation h op, rfl, rfl, fun _ _ hf => hf, le_refl _,
    fun q hq => Or.inl hq⟩

theorem dirEvolve_unlinkFromParent {s : VFS.FileSystemState} (h : Inv s)
    (par : Option Nat) (c : Nat) (b : Nat) : DirEvolve b s (VFS.unlinkFromParent s par c) := by
  unfold VFS.unlinkFromParent
  cases par
  · exact DirEvolve.refl h b
  · exact dirEvolve_removeChild h _ _ b

/-- Allocating a fresh directory object at path `path` (the directory-map
insert of `createDirectory`). -/
theorem dirEvolve_allocDir {s : VFS.FileSystemState} (h : Inv s)
    (name path : String) (pid : Nat) :
    DirEvolve path.length s
      { s with
        heap := VFS.heapSet s.heap s.nextId (.dir ⟨s.nextId, name, path, some pid, []⟩),
        directories := s.directories ++ [s.nextId],
        nextId := s.nextId + 1 } := by
  have hroot_lt := h.root_lt
  refine ⟨?_, rfl, rfl, ?_, by simp, ?_⟩
  · constructor
    all_goals dsimp only
    · obtain ⟨r, hr, hrp, hri⟩ := h.root_cell
      exact ⟨r, by rw [heapSet_other _ _ _ _ (by omega)]; exact hr, hrp, hri⟩
    · exact List.mem_append_left _ h.root_mem
    · intro i hi
      obtain ⟨f, hf⟩ := h.files_kind i hi
      have hne : i ≠ s.nextId := by
        intro he
        rw [he, h.fresh s.nextId (le_refl _)] at hf
        cases hf
      exact ⟨f, by rw [heapSet_other _ _ _ _ hne]; exact hf⟩
    · intro i hi
      rcases List.mem_append.mp hi with hi | hi
      · obtain ⟨x, hx⟩ := h.dirs_kind i hi
        have hne : i ≠ s.nextId := by
          intro he
          rw [he, h.fresh s.nextId (le_refl _)] at hx
          cases hx
        exact ⟨x, by rw [heapSet_other _ _ _ _ hne]; exact hx⟩
      · rw [List.mem_singleton.mp hi]
        exact ⟨_, heapSet_self _ _ _⟩
    · intro i hge
      have hne : i ≠ s.nextId := by omega
      rw [heapSet_other _ _ _ _ hne]
      exact h.fresh i (by omega)
    · intro i n hn
      by_cases hip : i = s.nextId
      · subst hip
        rw [heapSet_self] at hn
        cases hn
        simp [VFS.Node.kids]
      · rw [heapSet_other _ _ _ _ hip] at hn
        exact h.not_child i n hn
  · intro i f hf
    have hne : i ≠ s.nextId := by
      intro he
      rw [he, h.fresh s.nextId (le_refl _)] at hf
      cases hf
    dsimp only
    rw [heapSet_other _ _ _ _ hne]
    exact hf
  · intro q hq
    obtain ⟨i, hi, d', hd', hp'⟩ := hq
    dsimp only at hi hd'
    by_cases hip : i = s.nextId
    · subst hip
      rw [heapSet_self] at hd'
      cases hd'
      exact Or.inr (by rw [← hp'])
    · rw [heapSet_other _ _ _ _ hip] at hd'
      rcases List.mem_append.mp hi with hi | hi
      · exact Or.inl ⟨i, hi, d', hd', hp'⟩
      · exact absurd (List.mem_singleton.mp hi) hip

/-- The main evolution property of the mutually recursive creation pair. -/
theorem dirPair_evolve : ∀ fuel : Nat,
    (∀ s path, Inv s →
      DirEvolve (VFS.normalizePath path).length s (VFS.ensureDirectoryExists fuel s path).2) ∧
    (∀ s path, Inv s →
      DirEvolve (VFS.normalizePath path).length s (VFS.createDirectoryAux fuel s path).2) := by
  intro fuel
  induction fuel with
  | zero =>
    constructor
    · intro s path h
      simp only [VFS.ensureDirectoryExists]
      exact DirEvolve.refl h _
    · intro s path h
      simp only [VFS.createDirectoryAux]
      exact DirEvolve.refl h _
  | succ fuel ih =>
    constructor
    · intro s path h
      simp only [VFS.ensureDirectoryExists]
      split
      · exact DirEvolve.refl h _
      · split
        · split
          · next e s1 heq =>
            have h1 := ih.1 s (VFS.parsePath (VFS.normalizePath path)).1 h
            rw [heq] at h1
            have hb := norm_parse_fst_le (VFS.normalizePath path)
            rw [normalizePath_idem] at hb
            exact h1.mono hb
          · next a s1 heq =>
            have h1 := ih.1 s (VFS.parsePath (VFS.normalizePath path)).1 h
            rw [heq] at h1
            have hb := norm_parse_fst_le (VFS.normalizePath path)
            rw [normalizePath_idem] at hb
            have h2 := ih.2 s1 (VFS.normalizePath path) h1.inv
            rw [normalizePath_idem] at h2
            exact (h1.mono hb).trans h2
        · have h2 := ih.2 s (VFS.normalizePath path) h
          rw [normalizePath_idem] at h2
          exact h2
    · intro s path h
      simp only [VFS.createDirectoryAux]
      split
      · exact DirEvolve.refl h _
      · split
        · next e s1 heq =>
          have h1 := ih.1 s (VFS.parsePath (VFS.normalizePath path)).1 h
          rw [heq] at h1
          have hb := norm_parse_fst_le (VFS.normalizePath path)
          rw [normalizePath_idem] at hb
          exact h1.mono hb
        · next parentId s1 heq =>
          have h1 := ih.1 s (VFS.parsePath (VFS.normalizePath path)).1 h
          rw [heq] at h1
          have hb := norm_parse_fst_le (VFS.normalizePath path)
          rw [normalizePath_idem] at hb
          have h1' := h1.mono hb
          have h2 := dirEvolve_allocDir h1.inv (VFS.parsePath (VFS.normalizePath path)).2
            (VFS.normalizePath path) parentId
          have hcne : s1.nextId ≠ s1.rootId := by
            have hlt : s1.rootId < s1.nextId := h1.inv.root_lt
            omega
          have h3 := @dirEvolve_pushChild _ h2.inv parentId s1.nextId hcne
            (VFS.normalizePath path).length
          have h4 := dirEvolve_recordOperation h3.inv
            (⟨.createDirectory, VFS.normalizePath path, none, none⟩ : VFS.FSOperation)
            (VFS.normalizePath path).length
          exact h1'.trans (h2.trans (h3.trans h4))

/-- For a normalized non-root path, the parent component of `parsePath` is a
different string that normalizes either to the root or to something strictly
shorter. -/
theorem parse_parent (path : String) (hne : VFS.normalizePath path ≠ "/") :
    (VFS.parsePath (VFS.normalizePath path)).1 ≠ VFS.normalizePath path ∧
    (VFS.normalizePath ((VFS.parsePath (VFS.normalizePath path)).1) = "/" ∨
      (VFS.normalizePath ((VFS.parsePath (VFS.normalizePath path)).1)).length <
        (VFS.normalizePath path).length) := by
  have hpos : 1 ≤ (VFS.normalizePath path).data.length := normalizePath_length_pos path
  cases hk : VFS.lastSlashIdx (VFS.normalizePath path).data with
  | some k =>
    cases k with
    | zero =>
      have hfst := parsePath_fst_root (VFS.normalizePath path)
        (by rw [normalizePath_idem]; exact hk)
      constructor
      · rw [hfst]
        exact fun he => hne he.symm
      · left
        rw [hfst]
        decide
    | succ k0 =>
      have hfst := parsePath_fst_take (VFS.normalizePath path) k0
        (by rw [normalizePath_idem]; exact hk)
      rw [normalizePath_idem] at hfst
      have hlt := lastSlashIdx_lt_length _ _ hk
      constructor
      · rw [hfst]
        intro he
        have hdata := congrArg String.data he
        have hlen := congrArg List.length hdata
        simp only [List.length_take] at hlen
        omega
      · right
        rw [hfst]
        have hle := normalizePath_length_le
          (String.mk ((VFS.normalizePath path).data.take (k0 + 1)))
        have htk : (String.mk ((VFS.normalizePath path).data.take (k0 + 1))).length =
            ((VFS.normalizePath path).data.take (k0 + 1)).length := rfl
        rw [htk, List.length_take] at hle
        have hlen : (VFS.normalizePath path).length = (VFS.normalizePath path).data.length := rfl
        omega
  | none =>
    have hfst := parsePath_fst_dropLast (VFS.normalizePath path)
      (by rw [normalizePath_idem]; exact hk)
    rw [normalizePath_idem] at hfst
    by_cases hl1 : (VFS.normalizePath path).data.length = 1
    · have hdrop : (VFS.normalizePath path).data.dropLast = [] := by
        cases hd : (VFS.normalizePath path).data with
        | nil => rfl
        | cons x xs =>
          rw [hd] at hl1
          simp only [List.length_cons, Nat.add_left_eq_self] at hl1
          rw [List.length_eq_zero] at hl1
          subst hl1
          rfl
      constructor
      · rw [hfst, hdrop]
        intro he
        have hdata := congrArg String.data he
        have hlen := congrArg List.length hdata
        simp only [List.length_nil] at hlen
        omega
      · left
        rw [hfst, hdrop]
        decide
    · have hge : 2 ≤ (VFS.normalizePath path).data.length := by omega
      constructor
      · rw [hfst]
        intro he
        have hdata := congrArg String.data he
        have hlen := congrArg List.length hdata
        simp only [List.length_dropLast] at hlen
        omega
      · right
        rw [hfst]
        have hle := normalizePath_length_le (String.mk (VFS.normalizePath path).data.dropLast)
        have hdl : (String.mk (VFS.normalizePath path).data.dropLast).length =
            (VFS.normalizePath path).data.dropLast.length := rfl
        rw [hdl, List.length_dropLast] at hle
        have hlen : (VFS.normalizePath path).length = (VFS.normalizePath path).data.length := rfl
        omega

theorem getDirId_norm (s : VFS.FileSystemState) (q : String) :
    VFS.getDirId s (VFS.normalizePath q) = VFS.getDirId s q := by
  unfold VFS.getDirId
  rw [normalizePath_idem]

/-- A lookup hit returns at once, leaving the state untouched. -/
theorem ensure_found (fuel : Nat) (s : VFS.FileSystemState) (path : String) (i : Nat)
    (h : VFS.getDirId s (VFS.normalizePath path) = some i) (hf : 1 ≤ fuel) :
    VFS.ensureDirectoryExists fuel s path = (.ok i, s) := by
  cases fuel with
  | zero => omega
  | succ f => simp only [VFS.ensureDirectoryExists, h]

theorem heap_pushChild_other (s : VFS.FileSystemState) (p c i : Nat) (hip : i ≠ p) :
    (VFS.pushChild s p c).heap i = s.heap i := by
  unfold VFS.pushChild
  split
  · exact heapSet_other _ _ _ _ hip
  · rfl

theorem directories_pushChild (s : VFS.FileSystemState) (p c : Nat) :
    (VFS.pushChild s p c).directories = s.directories := by
  unfold VFS.pushChild
  split <;> rfl

theorem directories_recordOperation (s : VFS.FileSystemState) (op : VFS.FSOperation) :
    (VFS.recordOperation s op).directories = s.directories := rfl

theorem heap_recordOperation (s : VFS.FileSystemState) (op : VFS.FSOperation) :
    (VFS.recordOperation s op).heap = s.heap := rfl

/-- `createDirectory` on a normalized, absent path whose parent exists:
it succeeds and installs a fresh directory object at that path. -/
theorem createAux_ok (fuel : Nat) (s : VFS.FileSystemState) (path : String)
    (h : Inv s) (hnorm : VFS.normalizePath path = path)
    (hnone : VFS.getDirId s path = none)
    (hparent : ∃ j, VFS.getDirId s ((VFS.parsePath path).1) = some j)
    (hfuel : 2 ≤ fuel) :
    ∃ dId s', VFS.createDirectoryAux fuel s path = (.ok dId, s') ∧
      dId ∈ s'.directories ∧
      ∃ d : VFS.VDir, s'.heap dId = some (.dir d) ∧ d.path = path := by
  obtain ⟨j, hj⟩ := hparent
  cases fuel with
  | zero => omega
  | succ f =>
    have hj2 : VFS.getDirId s (VFS.normalizePath ((VFS.parsePath path).1)) = some j := by
      rw [getDirId_norm]
      exact hj
    have hens := ensure_found f s ((VFS.parsePath path).1) j hj2 (by omega)
    simp only [VFS.createDirectoryAux, hnorm, hnone, hens]
    have hjlt : j < s.nextId := by
      obtain ⟨-, d, hd, -⟩ := getDirId_some s ((VFS.parsePath path).1) j hj
      exact h.lt_nextId hd
    refine ⟨s.nextId, _, rfl, ?_, ?_⟩
    · rw [directories_recordOperation, directories_pushChild]
      exact List.mem_append_right _ (List.mem_singleton.mpr rfl)
    · rw [heap_recordOperation, heap_pushChild_other _ _ _ _ (by omega)]
      exact ⟨_, heapSet_self _ _ _, rfl⟩

/-- On a well-formed state, `ensureDirectoryExists` succeeds given fuel
linear in the path length, returning a registered directory object at the
normalized path. -/
theorem ensure_ok : ∀ n : Nat, ∀ path s fuel, (VFS.normalizePath path).length ≤ n → Inv s →
    2 * n + 2 ≤ fuel →
    ∃ dId s', VFS.ensureDirectoryExists fuel s path = (.ok dId, s') ∧
      dId ∈ s'.directories ∧
      ∃ d : VFS.VDir, s'.heap dId = some (.dir d) ∧ d.path = VFS.normalizePath path := by
  intro n
  induction n using Nat.strong_induction_on with
  | _ n ihn =>
    intro path s fuel hn h hfuel
    cases fuel with
    | zero => omega
    | succ f =>
      cases hgd : VFS.getDirId s (VFS.normalizePath path) with
      | some i =>
        rw [ensure_found (f + 1) s path i hgd (by omega)]
        obtain ⟨hmem, d, hd, hp⟩ := getDirId_some s (VFS.normalizePath path) i
          (by rw [getDirId_norm]; rw [getDirId_norm] at hgd; exact hgd)
        exact ⟨i, s, rfl, hmem, d, hd, by rw [hp, normalizePath_idem]⟩
      | none =>
        have hnp_ne : VFS.normalizePath path ≠ "/" := by
          intro he
          obtain ⟨i, hi⟩ := getDirId_root_some s h (VFS.normalizePath path)
            (by rw [normalizePath_idem]; exact he)
          rw [hi] at hgd
          cases hgd
        obtain ⟨hPne, hPcase⟩ := parse_parent path hnp_ne
        have hnpos : 1 ≤ (VFS.normalizePath path).length := normalizePath_length_pos path
        simp only [VFS.ensureDirectoryExists, hgd, if_pos hPne]
        rcases hPcase with hroot | hlt
        · -- the parent normalizes to the root, which exists: the recursive
          -- ensure finds it at once
          obtain ⟨i, hi⟩ := getDirId_root_some s h ((VFS.parsePath (VFS.normalizePath path)).1)
            hroot
          have hens := ensure_found f s ((VFS.parsePath (VFS.normalizePath path)).1) i
            (by rw [getDirId_norm]; exact hi) (by omega)
          rw [hens]
          have hca := createAux_ok f s (VFS.normalizePath path) h (normalizePath_idem path)
            hgd ⟨i, hi⟩ (by omega)
          obtain ⟨dId, s', hca1, hca2, hca3⟩ := hca
          exact ⟨dId, s', hca1, hca2, hca3⟩
        · -- the parent is strictly shorter: recurse
          have hrec := ihn ((VFS.normalizePath ((VFS.parsePath (VFS.normalizePath path)).1)).length)
            (by omega) ((VFS.parsePath (VFS.normalizePath path)).1) s f (le_refl _) h (by omega)
          obtain ⟨pId, s1, hens, hpmem, dp, hdp, hdpp⟩ := hrec
          rw [hens]
          have hev := (dirPair_evolve f).1 s ((VFS.parsePath (VFS.normalizePath path)).1) h
          rw [hens] at hev
          have hinv1 : Inv s1 := hev.inv
          have hnone1 : VFS.getDirId s1 (VFS.normalizePath path) = none := by
            cases hgd1 : VFS.getDirId s1 (VFS.normalizePath path) with
            | none => rfl
            | some x =>
              exfalso
              obtain ⟨hxm, dx, hdx, hdxp⟩ := getDirId_some s1 (VFS.normalizePath path) x hgd1
              rw [normalizePath_idem] at hdxp
              have hat : dirPathAt s1 (VFS.normalizePath path) := ⟨x, hxm, dx, hdx, hdxp⟩
              rcases hev.2.2.2.2.2 _ hat with hat0 | hble
              · exact (getDirId_none_iff s (VFS.normalizePath path)).mp hgd
                  (by rw [normalizePath_idem]; exact hat0)
              · omega
          have hparent1 : ∃ j, VFS.getDirId s1
              ((VFS.parsePath (VFS.normalizePath path)).1) = some j := by
            cases hgp : VFS.getDirId s1 ((VFS.parsePath (VFS.normalizePath path)).1) with
            | some j => exact ⟨j, rfl⟩
            | none =>
              exfalso
              exact (getDirId_none_iff s1 _).mp hgp ⟨pId, hpmem, dp, hdp, hdpp⟩
          have hca := createAux_ok f s1 (VFS.normalizePath path) hinv1 (normalizePath_idem path)
            hnone1 hparent1 (by omega)
          obtain ⟨dId, s', hca1, hca2, hca3⟩ := hca
          exact ⟨dId, s', hca1, hca2, hca3⟩

theorem getFileId_norm (s : VFS.FileSystemState) (q : String) :
    VFS.getFileId s (VFS.normalizePath q) = VFS.getFileId s q := by
  unfold VFS.getFileId
  rw [normalizePath_idem]

theorem files_pushChild (s : VFS.FileSystemState) (p c : Nat) :
    (VFS.pushChild s p c).files = s.files := by
  unfold VFS.pushChild
  split <;> rfl

theorem files_recordOperation (s : VFS.FileSystemState) (op : VFS.FSOperation) :
    (VFS.recordOperation s op).files = s.files := rfl

theorem heap_pushChild_parent (s : VFS.FileSystemState) (p c : Nat)
    (h : ∃ d : VFS.VDir, s.heap p = some (.dir d)) :
    ∃ d' : VFS.VDir, (VFS.pushChild s p c).heap p = some (.dir d') := by
  obtain ⟨d, hd⟩ := h
  unfold VFS.pushChild
  rw [hd]
  exact ⟨_, heapSet_self _ _ _⟩

/-- `createFile` on a well-formed state with no file at the normalized path:
it succeeds and installs a fresh file object carrying the content, leaving
all previously registered file cells untouched. -/
theorem createFile_ok (s : VFS.FileSystemState) (p c : String) (h : Inv s)
    (hnone : VFS.getFileId s p = none) :
    ∃ fId parentId s', VFS.createFile s p c = (.ok fId, s') ∧
      s'.files = s.files ++ [fId] ∧
      s'.heap fId = some (.file ⟨fId, (VFS.parsePath (VFS.normalizePath p)).2,
        VFS.normalizePath p, c, c.utf8ByteSize, some parentId⟩) ∧
      (∀ i ∈ s.files, s'.heap i = s.heap i ∧ i ≠ fId ∧ i ≠ parentId) ∧
      (∃ d' : VFS.VDir, s'.heap parentId = some (.dir d')) := by
  have hfle : 2 * (VFS.normalizePath ((VFS.parsePath (VFS.normalizePath p)).1)).length + 2 ≤
      VFS.ensureFuel ((VFS.parsePath (VFS.normalizePath p)).1) := by
    have h1 := normalizePath_length_le ((VFS.parsePath (VFS.normalizePath p)).1)
    unfold VFS.ensureFuel
    omega
  obtain ⟨parentId, s1, hens, hpmem, dpar, hdpar, hdparp⟩ :=
    ensure_ok _ ((VFS.parsePath (VFS.normalizePath p)).1) s _ (le_refl _) h hfle
  have hev := (dirPair_evolve (VFS.ensureFuel ((VFS.parsePath (VFS.normalizePath p)).1))).1 s
    ((VFS.parsePath (VFS.normalizePath p)).1) h
  rw [hens] at hev
  obtain ⟨hinv1, hroot1, hfiles1, hcells1, hnext1, -⟩ := hev
  have hnone' : VFS.getFileId s (VFS.normalizePath p) = none := by
    rw [getFileId_norm]
    exact hnone
  have hplt : parentId < s1.nextId := hinv1.lt_nextId hdpar
  have hsnext : s.nextId ≤ s1.nextId := hnext1
  have hcf : VFS.createFile s p c = (.ok s1.nextId,
      VFS.recordOperation
        (VFS.pushChild
          { s1 with
            heap := VFS.heapSet s1.heap s1.nextId (.file ⟨s1.nextId,
              (VFS.parsePath (VFS.normalizePath p)).2, VFS.normalizePath p, c,
              c.utf8ByteSize, some parentId⟩),
            files := s1.files ++ [s1.nextId],
            nextId := s1.nextId + 1 }
          parentId s1.nextId)
        ⟨.createFile, VFS.normalizePath p, some c, none⟩) := by
    simp only [VFS.createFile, hnone', hens]
  refine ⟨s1.nextId, parentId, _, hcf, ?_, ?_, ?_, ?_⟩
  · rw [files_recordOperation, files_pushChild]
    dsimp only
    rw [hfiles1]
  · rw [heap_recordOperation,
      heap_pushChild_other _ _ _ _ (show s1.nextId ≠ parentId by omega)]
    dsimp only
    exact heapSet_self _ _ _
  · intro i hi
    obtain ⟨f, hf⟩ := h.files_kind i hi
    have hs1f : s1.heap i = some (.file f) := hcells1 i f hf
    have hilt : i < s.nextId := h.lt_nextId hf
    have hine : i ≠ s1.nextId := by omega
    have hipar : i ≠ parentId := by
      intro he
      rw [he, hdpar] at hs1f
      cases hs1f
    refine ⟨?_, hine, hipar⟩
    rw [heap_recordOperation, heap_pushChild_other _ _ _ _ hipar]
    dsimp only
    rw [heapSet_other _ _ _ _ hine, hs1f, hf]
  · rw [heap_recordOperation]
    refine heap_pushChild_parent _ _ _ ⟨dpar, ?_⟩
    dsimp only
    rw [heapSet_other _ _ _ _ (show parentId ≠ s1.nextId by omega)]
    exact hdpar

theorem heap_removeChild_other (s : VFS.FileSystemState) (p c i : Nat) (hip : i ≠ p) :
    (VFS.removeChild s p c).heap i = s.heap i := by
  unfold VFS.removeChild
  split
  · exact heapSet_other _ _ _ _ hip
  · rfl

theorem files_removeChild (s : VFS.FileSystemState) (p c : Nat) :
    (VFS.removeChild s p c).files = s.files := by
  unfold VFS.removeChild
  split <;> rfl

/-- The path-scan of `getFileByPath` on a files map split as `base ++ [fId]`
where only the last file matches. -/
theorem find_file (S : VFS.FileSystemState) (base : List Nat) (fId : Nat) (F : VFS.VFile)
    (p : String) (hfl : S.files = base ++ [fId])
    (hF : S.heap fId = some (.file F)) (hFp : F.path = VFS.normalizePath p)
    (hb : ∀ i ∈ base, ∀ f : VFS.VFile, S.heap i = some (.file f) →
      f.path ≠ VFS.normalizePath p) :
    VFS.getFileId S p = some fId := by
  unfold VFS.getFileId
  rw [hfl, List.find?_append]
  have h1 : List.find? (fun i =>
      match S.heap i with
      | some (.file f) => f.path = VFS.normalizePath p
      | _ => false) base = none := by
    rw [List.find?_eq_none]
    intro i hi
    cases hc : S.heap i with
    | none => simp
    | some n =>
      cases n with
      | dir d => simp
      | file f =>
        simp only [decide_eq_true_eq]
        exact hb i hi f hc
  rw [h1, Option.none_or, List.find?_cons]
  rw [hF]
  simp [hFp]

/-- No file matches the scan when every registered file cell has a different
path. -/
theorem find_file_none (S : VFS.FileSystemState) (p : String)
    (hb : ∀ i ∈ S.files, ∀ f : VFS.VFile, S.heap i = some (.file f) →
      f.path ≠ VFS.normalizePath p) :
    VFS.getFileId S p = none := by
  unfold VFS.getFileId
  rw [List.find?_eq_none]
  intro i hi
  cases hc : S.heap i with
  | none => simp
  | some n =>
    cases n with
    | dir d => simp
    | file f =>
      simp only [decide_eq_true_eq]
      exact hb i hi f hc

/-- A path scan that finds no file makes `readFile` throw `File not found`. -/
theorem readFile_not_found (S : VFS.FileSystemState) (p : String)
    (hfnone : VFS.getFileId S p = none) :
    VFS.readFile S p = .error ("File not found: " ++ p) := by
  simp only [VFS.readFile, hfnone]

/-- C4: the CRUD round-trip of the virtual file system.  On a well-formed
state with no file at the normalization of `p`, `createFile(p, c)` succeeds;
`readFile(p)` then returns `c`; `updateFile(p, c2)` succeeds and
`readFile(p)` returns `c2`; `deleteFile(p)` returns `true` and a final
`readFile(p)` throws `File not found: <p>`. -/
theorem C4_crud_roundtrip (s : VFS.FileSystemState) (p c c2 : String)
    (h : Inv s) (hnone : VFS.getFileId s p = none) :
    ∃ fId s1 s2 s3,
      VFS.createFile s p c = (.ok fId, s1) ∧
      VFS.readFile s1 p = .ok c ∧
      VFS.updateFile s1 p c2 = (.ok fId, s2) ∧
      VFS.readFile s2 p = .ok c2 ∧
      VFS.deleteFile s2 p = (.ok true, s3) ∧
      VFS.readFile s3 p = .error ("File not found: " ++ p) := by
  obtain ⟨fId, parentId, S1, hcf, hf1, hcell, hold, hpdir⟩ := createFile_ok s p c h hnone
  have hpaths : ∀ i ∈ s.files, ∀ f : VFS.VFile, s.heap i = some (.file f) →
      f.path ≠ VFS.normalizePath p := by
    intro i hi f hf hp
    unfold VFS.getFileId at hnone
    have hn := List.find?_eq_none.mp hnone i hi
    rw [hf] at hn
    simp [hp] at hn
  have hb1 : ∀ i ∈ s.files, ∀ f : VFS.VFile, S1.heap i = some (.file f) →
      f.path ≠ VFS.normalizePath p := by
    intro i hi f hf
    rw [(hold i hi).1] at hf
    exact hpaths i hi f hf
  have hfind1 : VFS.getFileId S1 p = some fId :=
    find_file S1 s.files fId _ p hf1 hcell rfl hb1
  have hread1 : VFS.readFile S1 p = .ok c := by
    simp only [VFS.readFile, hfind1, hcell]
  have hupd : VFS.updateFile S1 p c2 = (.ok fId,
      VFS.recordOperation
        { S1 with heap := VFS.heapSet S1.heap fId (.file ⟨fId,
            (VFS.parsePath (VFS.normalizePath p)).2, VFS.normalizePath p, c2,
            c2.utf8ByteSize, some parentId⟩) }
        ⟨.updateFile, p, some c2, none⟩) := by
    simp only [VFS.updateFile, hfind1, hcell]
  have hcell2 : (VFS.recordOperation
      { S1 with heap := VFS.heapSet S1.heap fId (.file ⟨fId,
          (VFS.parsePath (VFS.normalizePath p)).2, VFS.normalizePath p, c2,
          c2.utf8ByteSize, some parentId⟩) }
      ⟨.updateFile, p, some c2, none⟩).heap fId = some (.file ⟨fId,
        (VFS.parsePath (VFS.normalizePath p)).2, VFS.normalizePath p, c2,
        c2.utf8ByteSize, some parentId⟩) := by
    rw [heap_recordOperation]
    exact heapSet_self _ _ _
  have hfiles2 : (VFS.recordOperation
      { S1 with heap := VFS.heapSet S1.heap fId (.file ⟨fId,
          (VFS.parsePath (VFS.normalizePath p)).2, VFS.normalizePath p, c2,
          c2.utf8ByteSize, some parentId⟩) }
      ⟨.updateFile, p, some c2, none⟩).files = s.files ++ [fId] := by
    rw [files_recordOperation]
    exact hf1
  have hheap2 : ∀ i ∈ s.files, (VFS.recordOperation
      { S1 with heap := VFS.heapSet S1.heap fId (.file ⟨fId,
          (VFS.parsePath (VFS.normalizePath p)).2, VFS.normalizePath p, c2,
          c2.utf8ByteSize, some parentId⟩) }
      ⟨.updateFile, p, some c2, none⟩).heap i = s.heap i := by
    intro i hi
    rw [heap_recordOperation]
    dsimp only
    rw [heapSet_other _ _ _ _ (hold i hi).2.1]
    exact (hold i hi).1
  have hb2 : ∀ i ∈ s.files, ∀ f : VFS.VFile, (VFS.recordOperation
      { S1 with heap := VFS.heapSet S1.heap fId (.file ⟨fId,
          (VFS.parsePath (VFS.normalizePath p)).2, VFS.normalizePath p, c2,
          c2.utf8ByteSize, some parentId⟩) }
      ⟨.updateFile, p, some c2, none⟩).heap i = some (.file f) →
      f.path ≠ VFS.normalizePath p := by
    intro i hi f hf
    rw [hheap2 i hi] at hf
    exact hpaths i hi f hf
  have hfind2 : VFS.getFileId (VFS.recordOperation
      { S1 with heap := VFS.heapSet S1.heap fId (.file ⟨fId,
          (VFS.parsePath (VFS.normalizePath p)).2, VFS.normalizePath p, c2,
          c2.utf8ByteSize, some parentId⟩) }
      ⟨.updateFile, p, some c2, none⟩) p = some fId :=
    find_file _ s.files fId _ p hfiles2 hcell2 rfl hb2
  have hread2 : VFS.readFile (VFS.recordOperation
      { S1 with heap := VFS.heapSet S1.heap fId (.file ⟨fId,
          (VFS.parsePath (VFS.normalizePath p)).2, VFS.normalizePath p, c2,
          c2.utf8ByteSize, some parentId⟩) }
      ⟨.updateFile, p, some c2, none⟩) p = .ok c2 := by
    simp only [VFS.readFile, hfind2, hcell2]
  have hdel := (by
    simp only [VFS.deleteFile, hfind2, hcell2] :
    VFS.deleteFile (VFS.recordOperation
      { S1 with heap := VFS.heapSet S1.heap fId (.file ⟨fId,
          (VFS.parsePath (VFS.normalizePath p)).2, VFS.normalizePath p, c2,
          c2.utf8ByteSize, some parentId⟩) }
      ⟨.updateFile, p, some c2, none⟩) p = (.ok true,
      VFS.recordOperation
        { (VFS.unlinkFromParent (VFS.recordOperation
            { S1 with heap := VFS.heapSet S1.heap fId (.file ⟨fId,
                (VFS.parsePath (VFS.normalizePath p)).2, VFS.normalizePath p, c2,
                c2.utf8ByteSize, some parentId⟩) }
            ⟨.updateFile, p, some c2, none⟩) (some parentId) fId) with
          files := (VFS.unlinkFromParent (VFS.recordOperation
            { S1 with heap := VFS.heapSet S1.heap fId (.file ⟨fId,
                (VFS.parsePath (VFS.normalizePath p)).2, VFS.normalizePath p, c2,
                c2.utf8ByteSize, some parentId⟩) }
            ⟨.updateFile, p, some c2, none⟩) (some parentId) fId).files.filter
              (fun i => i ≠ fId) }
        ⟨.deleteFile, p, none, none⟩))
  have hfilesU : (VFS.unlinkFromParent (VFS.recordOperation
      { S1 with heap := VFS.heapSet S1.heap fId (.file ⟨fId,
          (VFS.parsePath (VFS.normalizePath p)).2, VFS.normalizePath p, c2,
          c2.utf8ByteSize, some parentId⟩) }
      ⟨.updateFile, p, some c2, none⟩) (some parentId) fId).files = s.files ++ [fId] := by
    show (VFS.removeChild _ parentId fId).files = _
    rw [files_removeChild]
    exact hfiles2
  have hheapU : ∀ i ∈ s.files, (VFS.unlinkFromParent (VFS.recordOperation
      { S1 with heap := VFS.heapSet S1.heap fId (.file ⟨fId,
          (VFS.parsePath (VFS.normalizePath p)).2, VFS.normalizePath p, c2,
          c2.utf8ByteSize, some parentId⟩) }
      ⟨.updateFile, p, some c2, none⟩) (some parentId) fId).heap i = s.heap i := by
    intro i hi
    show (VFS.removeChild _ parentId fId).heap i = _
    rw [heap_removeChild_other _ _ _ _ (hold i hi).2.2]
    exact hheap2 i hi
  refine ⟨fId, S1, _, _, hcf, hread1, hupd, hread2, hdel,
    readFile_not_found _ p (find_file_none _ p ?_)⟩
  intro i hi f hf
  rw [files_recordOperation] at hi
  dsimp only at hi
  rw [hfilesU, List.mem_filter] at hi
  obtain ⟨hi1, hi2⟩ := hi
  have hine : i ≠ fId := by simpa using hi2
  have hi3 : i ∈ s.files := by
    rcases List.mem_append.mp hi1 with h1 | h1
    · exact h1
    · simp at h1
      exact absurd h1 hine
  rw [heap_recordOperation] at hf
  dsimp only at hf
  rw [hheapU i hi3] at hf
  exact hpaths i hi3 f hf

/-- The fresh state produced by `initializeState` is well-formed. -/
theorem Inv_initialState : Inv VFS.initialState := by
  have hroot : ∃ r : VFS.VDir,
      VFS.initialState.heap VFS.initialState.rootId = some (.dir r) ∧
      r.path = "/" ∧ r.id = VFS.initialState.rootId :=
    ⟨⟨0, "root", "/", none, []⟩, rfl, rfl, rfl⟩
  refine ⟨hroot, by simp [VFS.initialState], ?_, ?_, ?_, ?_⟩
  · intro i hi
    simp [VFS.initialState] at hi
  · intro i hi
    simp [VFS.initialState] at hi
    subst hi
    exact ⟨⟨0, "root", "/", none, []⟩, rfl⟩
  · intro i hig
    simp only [VFS.initialState] at hig ⊢
    rw [if_neg (by omega)]
  · intro i n hc
    by_cases hi : i = 0
    · subst hi
      rw [show VFS.initialState.heap 0 =
        some (VFS.Node.dir ⟨0, "root", "/", none, []⟩) from rfl] at hc
      cases hc
      simp [VFS.Node.kids, VFS.initialState]
    · simp [VFS.initialState, hi] at hc

theorem C4_crud_roundtrip_witness :
    Inv VFS.initialState ∧ VFS.getFileId VFS.initialState "/a/b.txt" = none ∧
    (∃ fId s1 s2 s3,
      VFS.createFile VFS.initialState "/a/b.txt" "hello" = (.ok fId, s1) ∧
      VFS.readFile s1 "/a/b.txt" = .ok "hello" ∧
      VFS.updateFile s1 "/a/b.txt" "world" = (.ok fId, s2) ∧
      VFS.readFile s2 "/a/b.txt" = .ok "world" ∧
      VFS.deleteFile s2 "/a/b.txt" = (.ok true, s3) ∧
      VFS.readFile s3 "/a/b.txt" = .error ("File not found: " ++ "/a/b.txt")) :=
  ⟨Inv_initialState, rfl,
    C4_crud_roundtrip VFS.initialState "/a/b.txt" "hello" "world" Inv_initialState rfl⟩

/-! ### Preservation of the well-formedness invariant by every operation -/

theorem rootId_recordOperation (s : VFS.FileSystemState) (op : VFS.FSOperation) :
    (VFS.recordOperation s op).rootId = s.rootId := rfl

theorem rootId_pushChild (s : VFS.FileSystemState) (p c : Nat) :
    (VFS.pushChild s p c).rootId = s.rootId := by
  unfold VFS.pushChild
  split <;> rfl

theorem rootId_removeChild (s : VFS.FileSystemState) (p c : Nat) :
    (VFS.removeChild s p c).rootId = s.rootId := by
  unfold VFS.removeChild
  split <;> rfl

theorem rootId_unlinkFromParent (s : VFS.FileSystemState) (par : Option Nat) (c : Nat) :
    (VFS.unlinkFromParent s par c).rootId = s.rootId := by
  unfold VFS.unlinkFromParent
  cases par
  · rfl
  · exact rootId_removeChild _ _ _

theorem rootId_setFileMoved (s : VFS.FileSystemState) (i : Nat) (p : String) (pid : Nat) :
    (VFS.setFileMoved s i p pid).rootId = s.rootId := by
  unfold VFS.setFileMoved
  split <;> rfl

theorem rootId_setDirMoved (s : VFS.FileSystemState) (i : Nat) (p : String) (pid : Nat) :
    (VFS.setDirMoved s i p pid).rootId = s.rootId := by
  unfold VFS.setDirMoved
  split <;> rfl

theorem rootId_deleteFile (s : VFS.FileSystemState) (p : String) :
    (VFS.deleteFile s p).2.rootId = s.rootId := by
  simp only [VFS.deleteFile]
  split
  · rfl
  · split
    · exact rootId_unlinkFromParent s _ _
    · rfl

/-- A `getFileByPath` hit names a registered file cell at the normalized
path. -/
theorem getFileId_some (s : VFS.FileSystemState) (q : String) (i : Nat)
    (h : VFS.getFileId s q = some i) :
    i ∈ s.files ∧ ∃ f : VFS.VFile, s.heap i = some (.file f) ∧
      f.path = VFS.normalizePath q := by
  unfold VFS.getFileId at h
  refine ⟨List.mem_of_find?_eq_some h, ?_⟩
  have hp := List.find?_some h
  cases hc : s.heap i with
  | none => rw [hc] at hp; simp at hp
  | some n =>
    cases n with
    | dir d => rw [hc] at hp; simp at hp
    | file f =>
      rw [hc] at hp
      simp only [decide_eq_true_eq] at hp
      exact ⟨f, rfl, hp⟩

theorem inv_setFileMoved {s : VFS.FileSystemState} (h : Inv s) (i : Nat) (p : String)
    (pid : Nat) : Inv (VFS.setFileMoved s i p pid) := by
  unfold VFS.setFileMoved
  split
  · next f hf => exact inv_setFileCell h hf
  · exact h

/-- Rewriting a non-root directory's path and parent preserves the
invariant. -/
theorem inv_setDirMoved {s : VFS.FileSystemState} (h : Inv s) {i : Nat} (p : String)
    (pid : Nat) (hi : i ≠ s.rootId) : Inv (VFS.setDirMoved s i p pid) := by
  unfold VFS.setDirMoved
  split
  · next d hd =>
    refine inv_setDirCell h hd (fun he => absurd he hi) ?_
    have := h.not_child i _ hd
    simpa [VFS.Node.kids] using this
  · exact h

/-- Allocating a fresh file object preserves the invariant. -/
theorem inv_allocFile {s : VFS.FileSystemState} (h : Inv s) (f : VFS.VFile) :
    Inv { s with
      heap := VFS.heapSet s.heap s.nextId (.file f)
      files := s.files ++ [s.nextId]
      nextId := s.nextId + 1 } := by
  have hroot_lt : s.rootId < s.nextId := h.root_lt
  constructor
  all_goals dsimp only
  · obtain ⟨r, hr, hrp, hri⟩ := h.root_cell
    exact ⟨r, by rw [heapSet_other _ _ _ _ (by omega)]; exact hr, hrp, hri⟩
  · exact h.root_mem
  · intro i hi
    rcases List.mem_append.mp hi with hi | hi
    · obtain ⟨g, hg⟩ := h.files_kind i hi
      have hilt : i < s.nextId := h.lt_nextId hg
      exact ⟨g, by rw [heapSet_other _ _ _ _ (by omega)]; exact hg⟩
    · rw [List.mem_singleton.mp hi]
      exact ⟨f, heapSet_self _ _ _⟩
  · intro i hi
    obtain ⟨d, hd⟩ := h.dirs_kind i hi
    have hilt : i < s.nextId := h.lt_nextId hd
    exact ⟨d, by rw [heapSet_other _ _ _ _ (by omega)]; exact hd⟩
  · intro i hge
    rw [heapSet_other _ _ _ _ (by omega)]
    exact h.fresh i (by omega)
  · intro i n hn
    by_cases hip : i = s.nextId
    · subst hip
      rw [heapSet_self] at hn
      cases hn
      simp [VFS.Node.kids]
    · rw [heapSet_other _ _ _ _ hip] at hn
      exact h.not_child i n hn

theorem inv_createFile (s : VFS.FileSystemState) (p c : String) (h : Inv s) :
    Inv (VFS.createFile s p c).2 := by
  simp only [VFS.createFile]
  split
  · exact h
  · split
    · next e s1 heq =>
      have h1 := (dirPair_evolve (VFS.ensureFuel (VFS.parsePath (VFS.normalizePath p)).1)).1 s
        (VFS.parsePath (VFS.normalizePath p)).1 h
      rw [heq] at h1
      exact h1.inv
    · next parentId s1 heq =>
      have h1 := (dirPair_evolve (VFS.ensureFuel (VFS.parsePath (VFS.normalizePath p)).1)).1 s
        (VFS.parsePath (VFS.normalizePath p)).1 h
      rw [heq] at h1
      have h2 := inv_allocFile h1.inv
        (⟨s1.nextId, (VFS.parsePath (VFS.normalizePath p)).2, VFS.normalizePath p, c,
          c.utf8ByteSize, some parentId⟩ : VFS.VFile)
      have hlt : s1.rootId < s1.nextId := h1.inv.root_lt
      have hcne : s1.nextId ≠ s1.rootId := by omega
      exact inv_recordOperation (inv_pushChild h2 hcne) _

theorem inv_createDirectory (s : VFS.FileSystemState) (p : String) (h : Inv s) :
    Inv (VFS.createDirectory s p).2 := by
  unfold VFS.createDirectory
  exact ((dirPair_evolve _).2 s p h).inv

theorem inv_updateFile (s : VFS.FileSystemState) (p c : String) (h : Inv s) :
    Inv (VFS.updateFile s p c).2 := by
  simp only [VFS.updateFile]
  split
  · exact h
  · split
    · next f hf => exact inv_recordOperation (inv_setFileCell h hf) _
    · exact h

theorem inv_deleteFile (s : VFS.FileSystemState) (p : String) (h : Inv s) :
    Inv (VFS.deleteFile s p).2 := by
  simp only [VFS.deleteFile]
  split
  · exact h
  · split
    · exact inv_recordOperation (inv_filterFiles (inv_unlinkFromParent h _ _) _) _
    · exact h

theorem inv_copyFile (s : VFS.FileSystemState) (src tgt : String) (h : Inv s) :
    Inv (VFS.copyFile s src tgt).2 := by
  simp only [VFS.copyFile]
  split
  · exact h
  · split
    · exact inv_createFile s tgt _ h
    · exact h

/-- The child-deletion loop keeps the invariant and the root id, given that
`deleteDirectoryAux` at the same fuel does. -/
theorem deleteChildren_inv (fuel : Nat)
    (hP : ∀ s path r, Inv s → Inv (VFS.deleteDirectoryAux fuel s path r).2 ∧
      (VFS.deleteDirectoryAux fuel s path r).2.rootId = s.rootId) :
    ∀ l s, Inv s → Inv (VFS.deleteChildren fuel s l).2 ∧
      (VFS.deleteChildren fuel s l).2.rootId = s.rootId := by
  intro l
  induction l with
  | nil =>
    intro s h
    simp only [VFS.deleteChildren]
    exact ⟨h, trivial⟩
  | cons c rest ihl =>
    intro s h
    simp only [VFS.deleteChildren]
    split
    · next cd hcd =>
      split
      · next e s1 heq =>
        have h1 := hP s cd.path true h
        rw [heq] at h1
        exact h1
      · next a s1 heq =>
        have h1 := hP s cd.path true h
        rw [heq] at h1
        have hs1 : Inv s1 := h1.1
        have hs1r : s1.rootId = s.rootId := h1.2
        have h2 := ihl s1 hs1
        exact ⟨h2.1, h2.2.trans hs1r⟩
    · next cf hcf =>
      split
      · next e s1 heq =>
        have h1 : Inv (VFS.deleteFile s cf.path).2 := inv_deleteFile s cf.path h
        have h1r := rootId_deleteFile s cf.path
        rw [heq] at h1 h1r
        exact ⟨h1, h1r⟩
      · next a s1 heq =>
        have h1 : Inv (VFS.deleteFile s cf.path).2 := inv_deleteFile s cf.path h
        have h1r := rootId_deleteFile s cf.path
        rw [heq] at h1 h1r
        have hs1 : Inv s1 := h1
        have hs1r : s1.rootId = s.rootId := h1r
        have h2 := ihl s1 hs1
        exact ⟨h2.1, h2.2.trans hs1r⟩
    · exact ihl s h

/-- `deleteDirectoryAux` keeps the invariant and the root id, at every fuel
and on every outcome. -/
theorem deleteDirAux_inv : ∀ fuel : Nat,
    ∀ s path r, Inv s → Inv (VFS.deleteDirectoryAux fuel s path r).2 ∧
      (VFS.deleteDirectoryAux fuel s path r).2.rootId = s.rootId := by
  intro fuel
  induction fuel with
  | zero =>
    intro s path r h
    simp only [VFS.deleteDirectoryAux]
    exact ⟨h, trivial⟩
  | succ fuel ih =>
    intro s path r h
    simp only [VFS.deleteDirectoryAux]
    split
    · exact ⟨h, rfl⟩
    · next dId hdid =>
      split
      · exact ⟨h, rfl⟩
      · next hne =>
        split
        · next d hd =>
          split
          · exact ⟨h, rfl⟩
          · split
            · next e s1 heq =>
              by_cases hrec : r = true
              · rw [if_pos hrec] at heq
                have hQ := deleteChildren_inv fuel ih d.children s h
                rw [heq] at hQ
                exact hQ
              · rw [if_neg hrec] at heq
                simp at heq
            · next a s1 heq =>
              have hs1 : Inv s1 ∧ s1.rootId = s.rootId := by
                by_cases hrec : r = true
                · rw [if_pos hrec] at heq
                  have hQ := deleteChildren_inv fuel ih d.children s h
                  rw [heq] at hQ
                  exact hQ
                · rw [if_neg hrec] at heq
                  injection heq with h1 h2
                  subst h2
                  exact ⟨h, rfl⟩
              have h2 := inv_unlinkFromParent hs1.1
                (match s1.heap dId with
                  | some (.dir d1) => d1.parentId
                  | _ => d.parentId) dId
              have hdne : dId ≠ (VFS.unlinkFromParent s1
                  (match s1.heap dId with
                    | some (.dir d1) => d1.parentId
                    | _ => d.parentId) dId).rootId := by
                rw [rootId_unlinkFromParent, hs1.2]
                exact hne
              refine ⟨inv_recordOperation (inv_filterDirs h2 hdne) _, ?_⟩
              have hr1 : (VFS.unlinkFromParent s1
                  (match s1.heap dId with
                    | some (.dir d1) => d1.parentId
                    | _ => d.parentId) dId).rootId = s1.rootId :=
                rootId_unlinkFromParent _ _ _
              exact hr1.trans hs1.2
        · exact ⟨h, rfl⟩

theorem inv_deleteDirectory (s : VFS.FileSystemState) (p : String) (r : Bool) (h : Inv s) :
    Inv (VFS.deleteDirectory s p r).2 := by
  unfold VFS.deleteDirectory
  exact (deleteDirAux_inv _ s p r h).1

/-- The path-rewriting loop of `moveDirectory` keeps the invariant and the
root id, provided the snapshot of children never names the root (which
`not_child` guarantees for real children lists). -/
theorem updateChildrenLoop_inv (fuel : Nat)
    (hP : ∀ s dId ob nb, Inv s → Inv (VFS.updateChildrenPaths fuel s dId ob nb).2 ∧
      (VFS.updateChildrenPaths fuel s dId ob nb).2.rootId = s.rootId) :
    ∀ l s ob nb, Inv s → s.rootId ∉ l →
      Inv (VFS.updateChildrenLoop fuel s l ob nb).2 ∧
      (VFS.updateChildrenLoop fuel s l ob nb).2.rootId = s.rootId := by
  intro l
  induction l with
  | nil =>
    intro s ob nb h _
    simp only [VFS.updateChildrenLoop]
    exact ⟨h, trivial⟩
  | cons c rest ihl =>
    intro s ob nb h hnm
    have hcr : c ≠ s.rootId := fun he => hnm (he ▸ List.mem_cons_self c rest)
    have hrest : s.rootId ∉ rest := fun hm => hnm (List.mem_cons_of_mem c hm)
    simp only [VFS.updateChildrenLoop]
    split
    · next f hf =>
      exact ihl _ ob nb (inv_setFileCell h hf) hrest
    · next d hd =>
      have h1 := @inv_setDirCell s h c d
        { d with path := nb ++ ⟨VFS.sliceFromU16 d.path.data (utf16Length ob)⟩ }
        hd (fun he => absurd he hcr)
        (by simpa [VFS.Node.kids] using h.not_child c _ hd)
      split
      · next e s2 heq =>
        have h2 := hP _ c ob nb h1
        rw [heq] at h2
        exact h2
      · next a s2 heq =>
        have h2 := hP _ c ob nb h1
        rw [heq] at h2
        have hs2 : Inv s2 := h2.1
        have hs2r : s2.rootId = s.rootId := h2.2
        have h3 := ihl s2 ob nb hs2 (hs2r ▸ hrest)
        exact ⟨h3.1, h3.2.trans hs2r⟩
    · exact ihl s ob nb h hrest

/-- `updateChildrenPaths` keeps the invariant and the root id at every fuel
and on every outcome. -/
theorem updateChildrenPaths_inv : ∀ fuel : Nat,
    ∀ s dId ob nb, Inv s → Inv (VFS.updateChildrenPaths fuel s dId ob nb).2 ∧
      (VFS.updateChildrenPaths fuel s dId ob nb).2.rootId = s.rootId := by
  intro fuel
  induction fuel with
  | zero =>
    intro s dId ob nb h
    simp only [VFS.updateChildrenPaths]
    exact ⟨h, trivial⟩
  | succ fuel ih =>
    intro s dId ob nb h
    simp only [VFS.updateChildrenPaths]
    split
    · next d hd =>
      exact updateChildrenLoop_inv fuel ih d.children s ob nb h
        (by simpa [VFS.Node.kids] using h.not_child dId _ hd)
    · exact ⟨h, rfl⟩

theorem inv_moveFileAux (s : VFS.FileSystemState) (fId : Nat) (tgt : String) (h : Inv s)
    (hne : fId ≠ s.rootId) : Inv (VFS.moveFileAux s fId tgt).2 := by
  simp only [VFS.moveFileAux]
  split
  · next e s1 heq =>
    have h1 := (dirPair_evolve (VFS.ensureFuel (VFS.parsePath (VFS.normalizePath tgt)).1)).1 s
      (VFS.parsePath (VFS.normalizePath tgt)).1 h
    rw [heq] at h1
    exact h1.inv
  · next npid s1 heq =>
    have h1 := (dirPair_evolve (VFS.ensureFuel (VFS.parsePath (VFS.normalizePath tgt)).1)).1 s
      (VFS.parsePath (VFS.normalizePath tgt)).1 h
    rw [heq] at h1
    have hroot1 : s1.rootId = s.rootId := h1.2.1
    have h2 := inv_unlinkFromParent h1.inv (VFS.fileParentId s1 fId) fId
    have h3 := inv_setFileMoved h2 fId (VFS.normalizePath tgt) npid
    have hfne : fId ≠ (VFS.setFileMoved
        (VFS.unlinkFromParent s1 (VFS.fileParentId s1 fId) fId) fId
        (VFS.normalizePath tgt) npid).rootId := by
      rw [rootId_setFileMoved, rootId_unlinkFromParent, hroot1]
      exact hne
    exact inv_recordOperation (inv_pushChild h3 hfne) _

theorem inv_moveDirAux (fuel : Nat) (s : VFS.FileSystemState) (dId : Nat) (tgt : String)
    (h : Inv s) (hne : dId ≠ s.rootId) : Inv (VFS.moveDirAux fuel s dId tgt).2 := by
  simp only [VFS.moveDirAux]
  split
  · next e s1 heq =>
    have h1 := (dirPair_evolve (VFS.ensureFuel (VFS.parsePath (VFS.normalizePath tgt)).1)).1 s
      (VFS.parsePath (VFS.normalizePath tgt)).1 h
    rw [heq] at h1
    exact h1.inv
  · next npid s1 heq =>
    have h1 := (dirPair_evolve (VFS.ensureFuel (VFS.parsePath (VFS.normalizePath tgt)).1)).1 s
      (VFS.parsePath (VFS.normalizePath tgt)).1 h
    rw [heq] at h1
    have hroot1 : s1.rootId = s.rootId := h1.2.1
    have h2 := inv_unlinkFromParent h1.inv (VFS.dirParentId s1 dId) dId
    have hdne2 : dId ≠ (VFS.unlinkFromParent s1 (VFS.dirParentId s1 dId) dId).rootId := by
      rw [rootId_unlinkFromParent, hroot1]
      exact hne
    have h3 := inv_setDirMoved h2 (VFS.normalizePath tgt) npid hdne2
    split
    · next e s4 heq2 =>
      have h4 := updateChildrenPaths_inv fuel
        (VFS.setDirMoved (VFS.unlinkFromParent s1 (VFS.dirParentId s1 dId) dId) dId
          (VFS.normalizePath tgt) npid) dId
        (VFS.dirPathOf (VFS.unlinkFromParent s1 (VFS.dirParentId s1 dId) dId) dId)
        (VFS.normalizePath tgt) h3
      rw [heq2] at h4
      exact h4.1
    · next a s4 heq2 =>
      have h4 := updateChildrenPaths_inv fuel
        (VFS.setDirMoved (VFS.unlinkFromParent s1 (VFS.dirParentId s1 dId) dId) dId
          (VFS.normalizePath tgt) npid) dId
        (VFS.dirPathOf (VFS.unlinkFromParent s1 (VFS.dirParentId s1 dId) dId) dId)
        (VFS.normalizePath tgt) h3
      rw [heq2] at h4
      have hs4 : Inv s4 := h4.1
      have hs4r : s4.rootId = (VFS.setDirMoved
          (VFS.unlinkFromParent s1 (VFS.dirParentId s1 dId) dId) dId
          (VFS.normalizePath tgt) npid).rootId := h4.2
      have hdne4 : dId ≠ s4.rootId := by
        rw [hs4r, rootId_setDirMoved, rootId_unlinkFromParent, hroot1]
        exact hne
      exact inv_recordOperation (inv_pushChild hs4 hdne4) _

theorem inv_move (s : VFS.FileSystemState) (src tgt : String) (h : Inv s)
    (hnr : ¬ VFS.movesRoot s (.move src tgt)) : Inv (VFS.move s src tgt).2 := by
  simp only [VFS.move]
  split
  · next fId hfind =>
    obtain ⟨-, f, hf, -⟩ := getFileId_some s (VFS.normalizePath src) fId hfind
    exact inv_moveFileAux s fId (VFS.normalizePath tgt) h (h.file_ne_root hf)
  · next hfnone =>
    split
    · next dId hdfind =>
      have hdne : dId ≠ s.rootId := by
        intro he
        exact hnr ⟨hfnone, he ▸ hdfind⟩
      exact inv_moveDirAux _ s dId (VFS.normalizePath tgt) h hdne
    · exact h

theorem inv_applyOp (s : VFS.FileSystemState) (op : VFS.Op) (h : Inv s)
    (hnr : ¬ VFS.movesRoot s op) : Inv (VFS.applyOp s op) := by
  cases op with
  | createFile p c => exact inv_createFile s p c h
  | createDirectory p => exact inv_createDirectory s p h
  | readFile p => exact h
  | updateFile p c => exact inv_updateFile s p c h
  | deleteFile p => exact inv_deleteFile s p h
  | deleteDirectory p r => exact inv_deleteDirectory s p r h
  | move src tgt => exact inv_move s src tgt h hnr
  | copyFile src tgt => exact inv_copyFile s src tgt h

/-- Every state reachable without moving the root itself is well-formed. -/
theorem ReachableSafe_inv {s : VFS.FileSystemState} (h : VFS.ReachableSafe s) : Inv s := by
  induction h with
  | init => exact Inv_initialState
  | step op hprev hnr ih => exact inv_applyOp _ op ih hnr

/-- `deleteDirectory` aimed at the root throws and leaves the state
untouched, at any positive fuel. -/
theorem deleteDirAux_root (fuel : Nat) (s : VFS.FileSystemState) (p : String) (r : Bool)
    (hfind : VFS.getDirId s p = some s.rootId) (hf : 1 ≤ fuel) :
    VFS.deleteDirectoryAux fuel s p r = (.error "Cannot delete root directory", s) := by
  cases fuel with
  | zero => omega
  | succ f =>
    simp only [VFS.deleteDirectoryAux, hfind]
    rw [if_pos trivial]

theorem deleteDirectory_root (s : VFS.FileSystemState) (p : String) (r : Bool)
    (hfind : VFS.getDirId s p = some s.rootId) :
    VFS.deleteDirectory s p r = (.error "Cannot delete root directory", s) := by
  unfold VFS.deleteDirectory
  exact deleteDirAux_root _ s p r hfind (by omega)

/-- C8 (amended): in every state reachable from a fresh `VirtualFileSystem`
without moving the root directory itself, `state.directories` still lists
`state.rootId` and the heap cell there is a directory with path `'/'` and id
`state.rootId`; and any `deleteDirectory` call that resolves to the root
throws `Cannot delete root directory` leaving the state unchanged.  (The
unrestricted claim is refuted by the `move('/', target)` counterexample.) -/
theorem C8_root_invariant (s : VFS.FileSystemState) (h : VFS.ReachableSafe s) :
    (s.rootId ∈ s.directories ∧
      ∃ r : VFS.VDir, s.heap s.rootId = some (.dir r) ∧ r.path = "/" ∧
        r.id = s.rootId) ∧
    (∀ (p : String) (rcv : Bool), VFS.getDirId s p = some s.rootId →
      VFS.deleteDirectory s p rcv = (.error "Cannot delete root directory", s)) := by
  have hinv := ReachableSafe_inv h
  exact ⟨⟨hinv.root_mem, hinv.root_cell⟩, fun p rcv hfind => deleteDirectory_root s p rcv hfind⟩

theorem C8_root_invariant_witness :
    VFS.ReachableSafe VFS.initialState ∧
    ((VFS.initialState.rootId ∈ VFS.initialState.directories ∧
      ∃ r : VFS.VDir, VFS.initialState.heap VFS.initialState.rootId = some (.dir r) ∧
        r.path = "/" ∧ r.id = VFS.initialState.rootId) ∧
    (∀ (p : String) (rcv : Bool),
      VFS.getDirId VFS.initialState p = some VFS.initialState.rootId →
      VFS.deleteDirectory VFS.initialState p rcv =
        (.error "Cannot delete root directory", VFS.initialState))) :=
  ⟨VFS.ReachableSafe.init, C8_root_invariant VFS.initialState VFS.ReachableSafe.init⟩

/-- Path rewriting of a childless directory is a no-op. -/
theorem ucp_nil (fuel : Nat) (s : VFS.FileSystemState) (dId : Nat) (ob nb : String)
    (d : VFS.VDir) (hd : s.heap dId = some (.dir d)) (hnil : d.children = [])
    (hf : 1 ≤ fuel) :
    VFS.updateChildrenPaths fuel s dId ob nb = (.ok (), s) := by
  cases fuel with
  | zero => omega
  | succ f =>
    simp only [VFS.updateChildrenPaths, hd, hnil]
    simp only [VFS.updateChildrenLoop]

def cxMidState : VFS.FileSystemState :=
  { heap := VFS.heapSet VFS.initialState.heap 0 (VFS.Node.dir ⟨0, "root", "/foo", some 0, []⟩)
    files := []
    directories := [0]
    operations := []
    currentPath := "/"
    rootId := 0
    nextId := 1 }

/-- What `move('/', '/foo')` does to a fresh state: the root directory cell
itself is renamed and pushed onto its own `children`. -/
theorem move_root_foo :
    VFS.move VFS.initialState "/" "/foo" =
      (.ok true, VFS.recordOperation (VFS.pushChild cxMidState 0 0)
        ⟨.moveDirectory, "/", none, some "/foo"⟩) := by
  have hens : VFS.ensureDirectoryExists (VFS.ensureFuel "/") VFS.initialState "/" =
      (.ok 0, VFS.initialState) := ensure_found _ _ _ 0 (by rfl) (by decide)
  have hucp : VFS.updateChildrenPaths 3 cxMidState 0 "/" "/foo" = (.ok (), cxMidState) :=
    ucp_nil 3 cxMidState 0 "/" "/foo" ⟨0, "root", "/foo", some 0, []⟩ rfl rfl (by decide)
  show (match VFS.ensureDirectoryExists (VFS.ensureFuel "/") VFS.initialState "/" with
    | (.error e, s1) => ((.error e : Except String Bool), s1)
    | (.ok npid, s1) =>
      match VFS.updateChildrenPaths 3
          (VFS.setDirMoved (VFS.unlinkFromParent s1 (VFS.dirParentId s1 0) 0) 0
            (VFS.normalizePath "/foo") npid) 0
          (VFS.dirPathOf (VFS.unlinkFromParent s1 (VFS.dirParentId s1 0) 0) 0)
          (VFS.normalizePath "/foo") with
      | (.error e, s4) => (.error e, s4)
      | (.ok _, s4) => (.ok true, VFS.recordOperation (VFS.pushChild s4 npid 0)
          ⟨.moveDirectory,
            VFS.dirPathOf (VFS.unlinkFromParent s1 (VFS.dirParentId s1 0) 0) 0,
            none, some (VFS.normalizePath "/foo")⟩)) = _
  rw [hens]
  show (match VFS.updateChildrenPaths 3 cxMidState 0 "/" "/foo" with
    | (.error e, s4) => ((.error e : Except String Bool), s4)
    | (.ok _, s4) => (.ok true, VFS.recordOperation (VFS.pushChild s4 0 0)
        ⟨.moveDirectory, "/", none, some "/foo"⟩)) = _
  rw [hucp]

theorem move_root_state :
    (VFS.applyOp VFS.initialState (.move "/" "/foo")).directories = [0] ∧
    (VFS.applyOp VFS.initialState (.move "/" "/foo")).heap 0 =
      some (.dir ⟨0, "root", "/foo", some 0, [0]⟩) := by
  constructor
  · show (VFS.move VFS.initialState "/" "/foo").2.directories = [0]
    rw [move_root_foo]
    rfl
  · show (VFS.move VFS.initialState "/" "/foo").2.heap 0 =
      some (.dir ⟨0, "root", "/foo", some 0, [0]⟩)
    rw [move_root_foo]
    rfl

/-- C8, counterexample to the unrestricted claim: `move('/', '/foo')` is a
single public call on a fresh `VirtualFileSystem` after which no entry of
`state.directories` holds a directory with path `'/'` — the root directory
is not preserved by every operation. -/
theorem C8_move_root_cx :
    VFS.Reachable (VFS.applyOp VFS.initialState (.move "/" "/foo")) ∧
    ¬ ∃ i ∈ (VFS.applyOp VFS.initialState (.move "/" "/foo")).directories,
      ∃ r : VFS.VDir,
        (VFS.applyOp VFS.initialState (.move "/" "/foo")).heap i = some (.dir r) ∧
        r.path = "/" := by
  refine ⟨VFS.Reachable.step (VFS.Op.move "/" "/foo") VFS.Reachable.init, ?_⟩
  rintro ⟨i, hi, r, hr, hp⟩
  rw [move_root_state.1] at hi
  rw [List.mem_singleton] at hi
  subst hi
  rw [move_root_state.2] at hr
  injection hr with h1
  injection h1 with h2
  subst h2
  exact absurd hp (by decide)
